import Mathlib

/-!
Verification of the AutoPACMEN model-construction core (klamt-lab/autopacmen).

This file contains a shallow embedding, in Lean 4, of the parts of the
repository that its specification makes claims about:

* `helper_create_model.get_irreversible_model` (reversibility splitting),
* `helper_create_model.get_model_with_separated_measured_enzyme_reactions`
  (measured-protein splitting),
* the prot_pool stoichiometry selection of
  `create_smoment_model_reaction_wise.create_smoment_model_reaction_wise`,
* `create_combined_kcat_database.create_combined_kcat_database`,
* `ncbi_taxonomy.most_taxonomic_similar`, and
* `get_reactions_kcat_mapping._get_kcat`, `_get_kcat_list` and
  `_get_kcat_from_protein_kcat_database`.

Python floats are modelled as exact rationals (`ℚ`): every claim proved here
is about the structural / exact-arithmetic behaviour of the code, not about
floating-point rounding.  Python dicts are modelled as association lists
(`List (key × value)`); insertion order is preserved, as in CPython.  Python
code paths that raise an exception (`KeyError`, `ValueError` from `max`/`min`
on an empty sequence, `sys.exit`) are modelled by `Option` with `none` for
the raising run.
-/

namespace Autopacmen

/- Batteries marks the rational-number arithmetic irreducible, which blocks
`decide` on concrete rational computations; re-allow unfolding locally so
that concrete runs of the embedded functions evaluate. -/
attribute [local semireducible] Rat.mul Rat.add Rat.sub Rat.inv

/-! ## Association-list helpers (model of Python `dict`) -/

/-- `alookup k m` models `m[k]` on a Python dict held as an association list:
the value of the first pair whose key is `k` (`none` models `KeyError`). -/
def alookup {α β : Type} [DecidableEq α] (k : α) : List (α × β) → Option β
  | [] => none
  | kv :: rest => if kv.1 = k then some kv.2 else alookup k rest

/-- `ainsert m k v` models `m[k] = v`: overwrite in place if the key exists
(keeping its position, as CPython dicts do), else append at the end. -/
def ainsert {α β : Type} [DecidableEq α] : List (α × β) → α → β → List (α × β)
  | [], k, v => [(k, v)]
  | kv :: rest, k, v => if kv.1 = k then (kv.1, v) :: rest else kv :: ainsert rest k v

/-- `aerase m k` models `del m[k]` on a dict with unique keys. -/
def aerase {α β : Type} [DecidableEq α] : List (α × β) → α → List (α × β)
  | [], _ => []
  | kv :: rest, k => if kv.1 = k then rest else kv :: aerase rest k

/-- `omapM f l` models a Python `for` loop building a list where each step can
raise: `none` as soon as one element raises. -/
def omapM {α β : Type} (f : α → Option β) : List α → Option (List β)
  | [] => some []
  | x :: xs =>
    match f x with
    | none => none
    | some y =>
      match omapM f xs with
      | none => none
      | some ys => some (y :: ys)

/-- `ofoldlM f b l` models a Python `for` loop folding an accumulator where
each step can raise. -/
def ofoldlM {α β : Type} (f : β → α → Option β) : β → List α → Option β
  | b, [] => some b
  | b, x :: xs =>
    match f b x with
    | none => none
    | some b' => ofoldlM f b' xs

/-- Python's built-in `max` on a list (raises on the empty list, hence
`Option`). -/
def listMax {α : Type} [LinearOrder α] : List α → Option α
  | [] => none
  | x :: xs => some (xs.foldl max x)

/-- Python's built-in `min` on a list (raises on the empty list, hence
`Option`). -/
def listMin {α : Type} [LinearOrder α] : List α → Option α
  | [] => none
  | x :: xs => some (xs.foldl min x)

/-- Kernel-friendly matcher: if `pat` is an initial run of `cs`, return the
remainder of `cs`. -/
def takesPat {α : Type} [DecidableEq α] : List α → List α → Option (List α)
  | [], cs => some cs
  | _ :: _, [] => none
  | p :: ps, c :: cs => if c = p then takesPat ps cs else none

/-- `strStartsWith s pre` models Python's `s.startswith(pre)`. -/
def strStartsWith (s pre : String) : Bool := (takesPat pre.data s.data).isSome

/-- `strEndsWith s suf` models Python's `s.endswith(suf)`. -/
def strEndsWith (s suf : String) : Bool :=
  (takesPat suf.data.reverse s.data.reverse).isSome

/-- Python's `sep.join(parts)` / the `+= sep + part` accumulation idiom. -/
def strIntercalate (sep : String) : List String → String
  | [] => ""
  | [x] => x
  | x :: y :: rest => x ++ sep ++ strIntercalate sep (y :: rest)

/-- Splitter on a fixed separator pattern, with explicit fuel so that it is
structurally recursive (the fuel is always at least the input length plus
one, so it never runs out). -/
def splitOnPat (pat : List Char) : Nat → List Char → List Char → List (List Char)
  | _, acc, [] => [acc.reverse]
  | 0, acc, cs => [acc.reverse ++ cs]
  | fuel + 1, acc, c :: cs =>
    match takesPat pat (c :: cs) with
    | some rest => acc.reverse :: splitOnPat pat fuel [] rest
    | none => splitOnPat pat fuel (c :: acc) cs

/-- `splitStr pat s` models Python's `s.split(pat)` for a non-empty `pat`. -/
def splitStr (pat s : String) : List String :=
  (splitOnPat pat.data (s.data.length + 1) [] s.data).map (fun cs => String.mk cs)

/-! ## Data model: reactions and metabolic networks

A cobra `Reaction` is modelled by its id, flux bounds, gene-reaction rule
string and stoichiometry map (metabolite id → coefficient).  Names,
compartments and annotations play no role in any claim and are omitted.
cobra never stores a zero coefficient (`add_metabolites` deletes them). -/

structure Reaction where
  id : String
  lower_bound : ℚ
  upper_bound : ℚ
  gene_reaction_rule : String
  metabolites : List (String × ℚ)
deriving DecidableEq

/-- A cobra `Model`, reduced to its reaction list together with the
`gene_reaction_rule` attribute that
`get_model_with_separated_measured_enzyme_reactions` dynamically sets ON THE
MODEL OBJECT (source line `model.gene_reaction_rule = new_gene_reaction_rule`);
a fresh cobra model has no such attribute, modelled by the initial `""`. -/
structure Model where
  reactions : List Reaction
  gene_reaction_rule : String := ""
deriving DecidableEq

/-- One OR-alternative of a structured gene rule, as read by
`_read_stoichiometries_worksheet`: a Python `str` (single protein) or a
Python `tuple` of protein ids (an AND-complex). -/
inductive Alternative where
  | single (protein : String)
  | complex (proteins : List String)
deriving DecidableEq

/-! ## cobra's `Reaction.add_metabolites`

`add_metabolites(d)` with the default `combine=True` ADDS each given
coefficient to the already-stored coefficient of the same metabolite id
(inserting new ids at the end), and afterwards deletes every metabolite whose
resulting coefficient is `0`. -/

/-- One `self._metabolites[met] += coefficient` step (insert if absent). -/
def dictAddCombine : List (String × ℚ) → String → ℚ → List (String × ℚ)
  | [], k, v => [(k, v)]
  | kv :: rest, k, v =>
    if kv.1 = k then (kv.1, kv.2 + v) :: rest else kv :: dictAddCombine rest k v

/-- The `if the_coefficient == 0: del …` post-pass of `add_metabolites` keeps
exactly the non-zero coefficients. -/
def nonzeroCoeff (kv : String × ℚ) : Bool := decide (kv.2 ≠ 0)

/-- cobra `Reaction.add_metabolites` with `combine=True`: combine all given
deltas into the stored map, then drop zero coefficients. -/
def add_metabolites (mets toAdd : List (String × ℚ)) : List (String × ℚ) :=
  (toAdd.foldl (fun acc kv => dictAddCombine acc kv.1 kv.2) mets).filter nonzeroCoeff

/-! ## `helper_create_model.get_irreversible_model`

The source iterates over a snapshot of the model's reaction ids; every
reaction with `lower_bound < 0` and a non-empty gene rule is deep-copied into
a `forward` and a `reverse` copy (cobra appends the copies at the end of the
reaction list) and then removed.  The deltas it passes to `add_metabolites`
are computed from a deep copy of the reaction's own metabolite dict, so every
delta key is already present and gets COMBINED with the stored coefficient. -/

/-- A reaction is split iff `lower_bound < 0` and its gene rule is non-empty
(the source `continue`s on `lower_bound >= 0` and on an empty rule). -/
def splitCondition (r : Reaction) : Bool :=
  decide (r.lower_bound < 0) && decide (r.gene_reaction_rule ≠ "")

/-- Deltas passed to `add_metabolites` for the forward copy: `armm_…reverse`
metabolites get `-1`, all other metabolites get `0`. -/
def forwardDeltas (r : Reaction) : List (String × ℚ) :=
  r.metabolites.map (fun kv =>
    (kv.1,
      if strStartsWith kv.1 "armm_" then
        (if strEndsWith kv.1 "reverse" then (-1 : ℚ) else 0)
      else 0))

/-- Deltas passed to `add_metabolites` for the reverse copy: ordinary
metabolites are multiplied by `-2`, `armm_…reverse` by `0`, `armm_…forward`
by `-1`; an `armm_` metabolite with neither suffix keeps its copied value. -/
def reverseDeltas (r : Reaction) : List (String × ℚ) :=
  r.metabolites.map (fun kv =>
    (kv.1,
      if ¬ strStartsWith kv.1 "armm_" then kv.2 * (-2)
      else if strEndsWith kv.1 "reverse" then kv.2 * 0
      else if strEndsWith kv.1 "forward" then kv.2 * (-1)
      else kv.2))

/-- The forward copy built by `get_irreversible_model`. -/
def forwardReaction (idAdd : String) (r : Reaction) : Reaction :=
  { r with
    id := r.id ++ idAdd ++ "forward"
    lower_bound := 0
    upper_bound := r.upper_bound
    metabolites := add_metabolites r.metabolites (forwardDeltas r) }

/-- The reverse copy built by `get_irreversible_model`. -/
def reverseReaction (idAdd : String) (r : Reaction) : Reaction :=
  { r with
    id := r.id ++ idAdd ++ "reverse"
    lower_bound := 0
    upper_bound := -r.lower_bound
    metabolites := add_metabolites r.metabolites (reverseDeltas r) }

/-- `get_irreversible_model`: the net effect of the in-place loop — reactions
that are not split stay (in order), each split reaction contributes its
forward and reverse copies (cobra appends them at the end, in iteration
order) and is removed. -/
def get_irreversible_model (reactions : List Reaction) (idAdd : String) : List Reaction :=
  reactions.filter (fun r => ! splitCondition r) ++
    (reactions.filter splitCondition).flatMap
      (fun r => [forwardReaction idAdd r, reverseReaction idAdd r])

/-! ## `helper_create_model.get_model_with_separated_measured_enzyme_reactions`

State carried by the splitter: the model plus the two mappings it mutates
(`reaction_id_gene_rules_mapping` and
`reaction_id_gene_rules_protein_stoichiometry_mapping`). -/

structure SplitState where
  model : Model
  rules : List (String × List Alternative)
  stoich : List (String × List (Alternative × List (String × ℚ)))
deriving DecidableEq

/-- All protein ids referenced by a structured gene rule. -/
def ruleProteins (rule : List Alternative) : List String :=
  rule.flatMap (fun alt =>
    match alt with
    | Alternative.single p => [p]
    | Alternative.complex ps => ps)

/-- An alternative is "measured" iff it is a measured single protein, or a
complex at least one of whose members is measured. -/
def isMeasured (conc : List (String × ℚ)) : Alternative → Bool
  | Alternative.single p => decide (p ∈ conc.map Prod.fst)
  | Alternative.complex ps => ps.any (fun sub => decide (sub ∈ conc.map Prod.fst))

/-- The `all_available` mass check: every protein of the rule has an entry in
the protein mass mapping. -/
def allAvailable (mass : List (String × ℚ)) (rule : List Alternative) : Bool :=
  rule.all (fun alt =>
    match alt with
    | Alternative.single p => decide (p ∈ mass.map Prod.fst)
    | Alternative.complex ps => ps.all (fun p => decide (p ∈ mass.map Prod.fst)))

/-- The arm reactions the splitter adds: one `armr_`/`armm_` pair for an
irreversible reaction, a `_forward` and a `_reverse` pair for a reversible
one (both with the ORIGINAL upper bound, as in the source). -/
def armReactions (reaction : Reaction) : List Reaction :=
  if 0 ≤ reaction.lower_bound then
    [{ id := "armr_" ++ reaction.id
       lower_bound := 0
       upper_bound := reaction.upper_bound
       gene_reaction_rule := ""
       metabolites := [("armm_" ++ reaction.id, -1)] }]
  else
    [{ id := "armr_" ++ reaction.id ++ "_forward"
       lower_bound := 0
       upper_bound := reaction.upper_bound
       gene_reaction_rule := ""
       metabolites := [("armm_" ++ reaction.id ++ "_forward", -1)] },
     { id := "armr_" ++ reaction.id ++ "_reverse"
       lower_bound := 0
       upper_bound := reaction.upper_bound
       gene_reaction_rule := ""
       metabolites := [("armm_" ++ reaction.id ++ "_reverse", -1)] }]

/-- Metabolites of a split copy: if an arm reaction was added, `+1` of the
arm metabolite(s) is combined in, else the copy keeps the original map. -/
def newMetabolites (reaction : Reaction) (add_arm_reaction : Bool) : List (String × ℚ) :=
  if add_arm_reaction then
    if 0 ≤ reaction.lower_bound then
      add_metabolites reaction.metabolites [("armm_" ++ reaction.id, 1)]
    else
      add_metabolites reaction.metabolites
        [("armm_" ++ reaction.id ++ "_forward", 1), ("armm_" ++ reaction.id ++ "_reverse", 1)]
  else reaction.metabolites

/-- The piece an alternative contributes to the rebuilt OR-rule string:
`"(" + " and ".join(t) + ")"` for a tuple, the id itself for a single. -/
def orJoinPart : Alternative → String
  | Alternative.single p => p
  | Alternative.complex ps => "(" ++ strIntercalate " and " ps ++ ")"

/-- The OR-combination string the splitter builds for the unmeasured
alternatives. -/
def orJoin (l : List Alternative) : String := strIntercalate " or " (l.map orJoinPart)

/-- The rewritten gene rule a measured copy receives:
`" and ".join(t)` for a tuple (no parentheses in the source here), the id
itself for a single. -/
def measuredRuleString : Alternative → String
  | Alternative.single p => p
  | Alternative.complex ps => strIntercalate " and " ps

/-- The per-alternative inner stoichiometry dict copied into the mapping of a
new split reaction (`none` models the `KeyError` the source would raise). -/
def stoichEntryFor (stoichR : List (Alternative × List (String × ℚ))) :
    Alternative → Option (List (String × ℚ))
  | Alternative.single p =>
    match alookup (Alternative.single p) stoichR with
    | none => none
    | some inner =>
      match alookup p inner with
      | none => none
      | some v => some [(p, v)]
  | Alternative.complex ps =>
    match alookup (Alternative.complex ps) stoichR with
    | none => none
    | some inner => omapM (fun p => (alookup p inner).map (fun v => (p, v))) ps

/-- The measured-element loop: for each measured alternative, a deep copy of
the reaction numbered `_GPRSPLIT_<n>` with the rewritten gene rule, plus the
gene-rule/stoichiometry mapping entries to record for it. -/
def measuredCopies (reaction : Reaction) (add_arm_reaction : Bool)
    (stoichR : List (Alternative × List (String × ℚ))) :
    Nat → List Alternative → Option (List (Reaction × Alternative × List (String × ℚ)))
  | _, [] => some []
  | n, e :: rest =>
    match stoichEntryFor stoichR e with
    | none => none
    | some inner =>
      match measuredCopies reaction add_arm_reaction stoichR (n + 1) rest with
      | none => none
      | some tail =>
        some (({ reaction with
                 id := reaction.id ++ "_GPRSPLIT_" ++ toString n
                 gene_reaction_rule := measuredRuleString e
                 metabolites := newMetabolites reaction add_arm_reaction }, e, inner) :: tail)

/-- `model.remove_reactions([reaction])`: remove the processed reaction
object (found by its id). -/
def eraseById : List Reaction → String → List Reaction
  | [], _ => []
  | r :: rest, rid => if r.id = rid then rest else r :: eraseById rest rid

/-- One iteration of
`get_model_with_separated_measured_enzyme_reactions` for the snapshot id
`rid`.  `none` models a raising run (`KeyError` on a stoichiometry lookup or
a vanished reaction id); `some s` with the state unchanged models a
`continue`.

Faithfulness notes mirroring the source:
* the unmeasured alternatives are OR-combined into ONE candidate reaction
  `id+"_GPRSPLIT_1"`, which keeps the deep-copied `gene_reaction_rule` of the
  original — the freshly built OR-combination string is assigned to
  `model.gene_reaction_rule` (an attribute of the model object), not to the
  new reaction;
* in the unmeasured loop a single (non-tuple) element is appended TWICE to
  the new rules-mapping entry (source appends once before the type check and
  once in the `else` branch);
* the unmeasured reaction is only added to the model if the rebuilt rule
  string is non-empty, and the measured copies are then numbered from 2,
  else from 1. -/
def splitStep (conc mass : List (String × ℚ)) (excluded : List String)
    (s : SplitState) (rid : String) : Option SplitState :=
  match s.model.reactions.find? (fun x => decide (x.id = rid)) with
  | none => none
  | some reaction =>
    match alookup rid s.rules with
    | none => some s
    | some gene_rule =>
      if rid ∈ excluded then some s
      else if allAvailable mass gene_rule then
        let measured_elements := gene_rule.filter (fun e => isMeasured conc e)
        let unmeasured_elements := gene_rule.filter (fun e => ! isMeasured conc e)
        if measured_elements = [] then some s
        else
          let add_arm_reaction :=
            decide (1 ≤ unmeasured_elements.length) || decide (1 < measured_elements.length)
          let model1 : Model :=
            if add_arm_reaction then
              { s.model with reactions := s.model.reactions ++ armReactions reaction }
            else s.model
          match alookup rid s.stoich with
          | none => none
          | some stoichR =>
            let newRuleList := unmeasured_elements.flatMap (fun e =>
              match e with
              | Alternative.complex _ => [e]
              | Alternative.single _ => [e, e])
            match omapM (fun e => (stoichEntryFor stoichR e).map (fun inner => (e, inner)))
                unmeasured_elements with
            | none => none
            | some unmStoich =>
              let new_gene_reaction_rule := orJoin unmeasured_elements
              let unmReaction : Reaction :=
                { reaction with
                  id := reaction.id ++ "_GPRSPLIT_1"
                  metabolites := newMetabolites reaction add_arm_reaction }
              let rules1 := ainsert s.rules unmReaction.id newRuleList
              let stoich1 := ainsert s.stoich unmReaction.id unmStoich
              let model2 : Model := { model1 with gene_reaction_rule := new_gene_reaction_rule }
              let model3 : Model :=
                if new_gene_reaction_rule ≠ "" then
                  { model2 with reactions := model2.reactions ++ [unmReaction] }
                else model2
              let split_no := if new_gene_reaction_rule ≠ "" then 2 else 1
              match measuredCopies reaction add_arm_reaction stoichR split_no measured_elements with
              | none => none
              | some copies =>
                let model4 : Model :=
                  { model3 with reactions := model3.reactions ++ copies.map (fun c => c.1) }
                let rules2 := copies.foldl (fun m c => ainsert m c.1.id [c.2.1]) rules1
                let stoich2 := copies.foldl (fun m c => ainsert m c.1.id [(c.2.1, c.2.2)]) stoich1
                let model5 : Model := { model4 with reactions := eraseById model4.reactions rid }
                some { model := model5, rules := rules2, stoich := stoich2 }
      else some s

/-- The full measured-protein splitter: iterate `splitStep` over a snapshot
of the model's reaction ids, as the source does. -/
def get_model_with_separated_measured_enzyme_reactions
    (conc mass : List (String × ℚ)) (excluded : List String)
    (s : SplitState) : Option SplitState :=
  ofoldlM (splitStep conc mass excluded) s (s.model.reactions.map (fun r => r.id))

/-! ## prot_pool stoichiometry selection of `create_smoment_model_reaction_wise`

The main loop fetches ONE kcat for the reaction (forward or reverse,
depending on the id suffix), computes for each OR-alternative the candidate
prot_pool stoichiometry `units * (mass/1000) / (kcat*3600) * (-1)` (summed
over the members of an AND-complex), and injects
`max(stoichiometries)` as the prot_pool coefficient of the reaction.
`rid` is the reaction id stripped of the `_TG_` additions, exactly the key
the source uses for its mapping lookups. -/

/-- Candidate prot_pool coefficient of one alternative, as the source
computes it. -/
def isozyme_stoichiometry (stoichR : List (Alternative × List (String × ℚ)))
    (massMap : List (String × ℚ)) (reaction_kcat : ℚ) : Alternative → Option ℚ
  | Alternative.single p =>
    match alookup (Alternative.single p) stoichR with
    | none => none
    | some inner =>
      match alookup p inner with
      | none => none
      | some number_units =>
        match alookup p massMap with
        | none => none
        | some mass => some (number_units * (mass / 1000) / (reaction_kcat * 3600) * (-1))
  | Alternative.complex ps =>
    match alookup (Alternative.complex ps) stoichR with
    | none => none
    | some inner =>
      ofoldlM (fun acc p =>
        match alookup p inner with
        | none => none
        | some number_units =>
          match alookup p massMap with
          | none => none
          | some mass =>
            some (acc + number_units * (mass / 1000) / (reaction_kcat * 3600) * (-1))) 0 ps

/-- The aggregated mass of an alternative (unit count times mass in
kDa-over-1000 units, summed over complex members) — the `mass_sum` of the
specification's formula `-(mass_sum)/(kcat*3600)`. -/
def isozyme_mass_sum (stoichR : List (Alternative × List (String × ℚ)))
    (massMap : List (String × ℚ)) : Alternative → Option ℚ
  | Alternative.single p =>
    match alookup (Alternative.single p) stoichR with
    | none => none
    | some inner =>
      match alookup p inner with
      | none => none
      | some number_units =>
        match alookup p massMap with
        | none => none
        | some mass => some (number_units * (mass / 1000))
  | Alternative.complex ps =>
    match alookup (Alternative.complex ps) stoichR with
    | none => none
    | some inner =>
      ofoldlM (fun acc p =>
        match alookup p inner with
        | none => none
        | some number_units =>
          match alookup p massMap with
          | none => none
          | some mass => some (acc + number_units * (mass / 1000))) 0 ps

/-- The specification's candidate formula `-(mass_sum)/(kcat*3600)`. -/
def prot_pool_candidate (mass_sum kcat : ℚ) : ℚ := -mass_sum / (kcat * 3600)

/-- The prot_pool coefficient injected for a reaction: the maximum of the
per-alternative candidates (`max(stoichiometries)` in the source; `none`
models a raising run, e.g. `max([])` or a mapping `KeyError`). -/
def smoment_prot_pool_stoichiometry
    (stoichMap : List (String × List (Alternative × List (String × ℚ))))
    (massMap : List (String × ℚ)) (rid : String)
    (gene_rule : List Alternative) (reaction_kcat : ℚ) : Option ℚ :=
  match alookup rid stoichMap with
  | none => none
  | some stoichR =>
    match omapM (isozyme_stoichiometry stoichR massMap reaction_kcat) gene_rule with
    | none => none
    | some stoichiometries => listMax stoichiometries

/-! ## `create_combined_kcat_database` -/

/-- One EC-number entry of a kcat database JSON.  The flag keys `WILDCARD`,
`SOURCE` and `TRANSFER` of the JSON object are modelled as fields; the
remaining (substrate) keys as the `mets` map substrate → organism → kcats. -/
structure KcatEntry where
  wildcard : Bool
  source : Option String := none
  transfer : Option String := none
  mets : List (String × List (String × List ℚ)) := []
deriving DecidableEq

/-- Python's `{**sabio_rk_entry, **brenda_entry}`: the second dict's values
override on key collision; fresh second-dict keys are appended. -/
def dictMergeRightBiased (sv bv : List (String × List ℚ)) : List (String × List ℚ) :=
  sv.map (fun kv => (kv.1, (alookup kv.1 bv).getD kv.2)) ++
    bv.filter (fun kv => decide (kv.1 ∉ sv.map Prod.fst))

/-- The both-non-wildcard merge branch.  Python iterates `list(set(keys))`
whose order is unspecified; the union is modelled in
first-seen order.  The source skips only the literal `"WILDCARD"` metabolite
key; the flag keys are fields here, so `mets` holds substrate keys only. -/
def mergeEntries (sE bE : KcatEntry) : KcatEntry :=
  let metabolite_keys := (sE.mets.map Prod.fst ++ bE.mets.map Prod.fst).dedup
  { wildcard := false
    source := some "BRENDA and SABIO-RK"
    transfer := none
    mets := metabolite_keys.filterMap (fun k =>
      if k = "WILDCARD" then none
      else
        match alookup k bE.mets, alookup k sE.mets with
        | some bv, some sv => some (k, dictMergeRightBiased sv bv)
        | some bv, none => some (k, bv)
        | none, some sv => some (k, sv)
        | none, none => none) }

/-- Handling of one BRENDA EC-number key by `create_combined_kcat_database`:
an EC number missing from SABIO-RK counts as wildcarded there; both
wildcarded → dropped; exactly one non-wildcarded → that entry with
`WILDCARD = False` and the `SOURCE` tag; both non-wildcarded → merge. -/
def combineEntry (sabio : List (String × KcatEntry)) (p : String × KcatEntry) :
    Option (String × KcatEntry) :=
  let is_sabio_rk_from_wildcard :=
    match alookup p.1 sabio with
    | none => true
    | some sE => sE.wildcard
  let is_brenda_from_wildcard := p.2.wildcard
  if is_sabio_rk_from_wildcard && is_brenda_from_wildcard then none
  else if !is_sabio_rk_from_wildcard && !is_brenda_from_wildcard then
    match alookup p.1 sabio with
    | none => none
    | some sE => some (p.1, mergeEntries sE p.2)
  else if !is_sabio_rk_from_wildcard then
    match alookup p.1 sabio with
    | none => none
    | some sE => some (p.1, { sE with wildcard := false, source := some "SABIO-RK" })
  else some (p.1, { p.2 with wildcard := false, source := some "BRENDA" })

/-- `create_combined_kcat_database`: the source iterates over
`list(brenda_database.keys())` ONLY (`# BRENDA contains all relevant EC
numbers`), so EC numbers present only in SABIO-RK never reach the output. -/
def create_combined_kcat_database (sabio brenda : List (String × KcatEntry)) :
    List (String × KcatEntry) :=
  brenda.filterMap (combineEntry sabio)

/-! ## `ncbi_taxonomy.most_taxonomic_similar` -/

/-- The `level_dict` loop: assign each taxonomic level of the base lineage
its index (`level` counts up from 0; a repeated level is overwritten with the
later, larger index). -/
def buildLevelDict : List String → Nat → List (String × Nat) → List (String × Nat)
  | [], _, level_dict => level_dict
  | l :: rest, level, level_dict => buildLevelDict rest (level + 1) (ainsert level_dict l level)

/-- The inner scan: the `level_dict` value of the first lineage level that
occurs in it (`break` on the first hit; no hit → the organism gets no
score). -/
def firstScore (level_dict : List (String × Nat)) : List String → Option Nat
  | [] => none
  | l :: rest =>
    match alookup l level_dict with
    | some lv => some lv
    | none => firstScore level_dict rest

/-- `most_taxonomic_similar` (`none` models the `KeyError` when the base
species is not a key of the taxonomy dict). -/
def most_taxonomic_similar (base_species : String)
    (taxonomy_dict : List (String × List String)) : Option (List (String × Nat)) :=
  match alookup base_species taxonomy_dict with
  | none => none
  | some base_taxonomy =>
    let level_dict := buildLevelDict base_taxonomy 0 []
    some (taxonomy_dict.filterMap (fun p => (firstScore level_dict p.2).map (fun sc => (p.1, sc))))

/-- Index of the last occurrence of `k` (what `buildLevelDict`'s overwrite
semantics records). -/
def lastIdxOf (k : String) : List String → Option Nat
  | [] => none
  | x :: xs =>
    match lastIdxOf k xs with
    | some i => some (i + 1)
    | none => if x = k then some 0 else none

/-- Index of the first occurrence of `k` — the "index in the base's lineage"
of the specification. -/
def idxOfStr (k : String) : List String → Option Nat
  | [] => none
  | x :: xs => if x = k then some 0 else (idxOfStr k xs).map (fun i => i + 1)

/-! ## `get_reactions_kcat_mapping`: kcat selection -/

/-- One entry of the custom protein-level kcat database JSON:
`{"kcats": [...], "direction": {reaction_id: "forward"|"reverse"}}`. -/
structure ProteinKcatEntry where
  kcats : List ℚ
  direction : List (String × String)
deriving DecidableEq

/-- The gene names of a reaction's rule, as `_get_kcat_from_protein_kcat_database`
extracts them: the source replaces `" or "` and `" and "` by tabs and splits
on tabs, which (the patterns being space-delimited and the tab fresh)
is splitting on `" or "` and then on `" and "`. -/
def gene_rule_gene_names (rule : String) : List String :=
  (splitStr " or " rule).flatMap (fun part => splitStr " and " part)

/-- `_get_kcat_from_protein_kcat_database`.  Outer `none` = raising run
(`KeyError` on the direction dict, `max` of an empty kcat list); inner
`none` = the `math.nan` "no kcat found" result.  The direction comparison of
the source is reproduced as written: BOTH branches append `max_kcat`. -/
def _get_kcat_from_protein_kcat_database (searched_direction : String)
    (reaction : Reaction) (protein_kcat_database : List (String × ProteinKcatEntry)) :
    Option (Option ℚ) :=
  let gene_names := gene_rule_gene_names reaction.gene_reaction_rule
  match ofoldlM (fun acc gene_name =>
      match alookup gene_name protein_kcat_database with
      | none => some acc
      | some entry =>
        match alookup reaction.id entry.direction with
        | none => none
        | some kcat_direction =>
          match listMax entry.kcats with
          | none => none
          | some max_kcat =>
            if kcat_direction = searched_direction ∧ searched_direction = "forward" then
              some (acc ++ [max_kcat])
            else some (acc ++ [max_kcat])) [] gene_names with
  | none => none
  | some max_kcats =>
    match listMin max_kcats with
    | some v => some (some v)
    | none => some none

/-- The `if species not in mapping: mapping[species] = []` plus
`mapping[species] += kcats` idiom. -/
def dictExtend : List (String × List ℚ) → String → List ℚ → List (String × List ℚ)
  | [], k, v => [(k, v)]
  | kv :: rest, k, v => if kv.1 = k then (kv.1, kv.2 ++ v) :: rest else kv :: dictExtend rest k v

/-- The `species_kcat_mapping` built from the searched metabolites (`none`
models the `KeyError` for a metabolite key missing from the complete
entry). -/
def buildSpeciesKcatMapping (searched_metabolites : List String)
    (complete_entry : List (String × List (String × List ℚ))) :
    Option (List (String × List ℚ)) :=
  ofoldlM (fun mapping sm =>
    match alookup sm complete_entry with
    | none => none
    | some species_entries =>
      some (species_entries.foldl (fun mp p => dictExtend mp p.1 p.2) mapping)) []
    searched_metabolites

/-- The `score_dict[species] = max(score_dict.values())+1` loop for species
without a score.  The max is recomputed on each iteration, so successive
missing species get successively larger scores, exactly as in the source. -/
def fill_missing (scores : List (String × Nat)) (keys : List String) :
    Option (List (String × Nat)) :=
  ofoldlM (fun sc sp =>
    if (alookup sp sc).isSome then some sc
    else
      match listMax (sc.map Prod.snd) with
      | none => none
      | some mx => some (sc ++ [(sp, mx + 1)])) scores keys

/-- One pass of the distance loop body: kcats of all species at the current
distance (species without kcat entries are skipped). -/
def gatherAtDistance (score_dict : List (String × Nat))
    (mapping : List (String × List ℚ)) (current : Nat) : List ℚ :=
  score_dict.flatMap (fun p =>
    match alookup p.1 mapping with
    | none => []
    | some ks => if p.2 = current then ks else [])

/-- The `while (len(kcat_list) < 10) and (current <= max)` loop, with fuel
`max + 1 - min` (enough for every possible iteration: when the fuel runs
out, `current > max` holds and the loop would stop anyway). -/
def collectKcats (score_dict : List (String × Nat)) (mapping : List (String × List ℚ))
    (maximal_distance : Nat) : Nat → Nat → List ℚ → List ℚ
  | 0, _, kcat_list => kcat_list
  | fuel + 1, current_distance, kcat_list =>
    if kcat_list.length < 10 ∧ current_distance ≤ maximal_distance then
      collectKcats score_dict mapping maximal_distance fuel (current_distance + 1)
        (kcat_list ++ gatherAtDistance score_dict mapping current_distance)
    else kcat_list

/-- `_get_kcat_list`.  The NCBI-Taxonomy/cache retrieval block is an external
collaborator (out of the specification's scope) and is modelled by the total
function `taxonomyOf` giving each organism its lineage (the source guarantees
a lineage — possibly `["NOT FOUND"]` — for every queried organism). -/
def _get_kcat_list (searched_metabolites : List String)
    (complete_entry : List (String × List (String × List ℚ)))
    (organism : String) (searched_direction : String) (reaction : Reaction)
    (protein_kcat_database : List (String × ProteinKcatEntry))
    (taxonomyOf : String → List String) : Option (List ℚ) :=
  match buildSpeciesKcatMapping searched_metabolites complete_entry with
  | none => none
  | some species_kcat_mapping =>
    let all_species := species_kcat_mapping.map Prod.fst
    let organism_added := decide (organism ∉ all_species)
    let all_species2 := if organism_added then all_species ++ [organism] else all_species
    let full_taxonomy_dict := all_species2.map (fun sp => (sp, taxonomyOf sp))
    match most_taxonomic_similar organism full_taxonomy_dict with
    | none => none
    | some score_dict0 =>
      match fill_missing score_dict0 (full_taxonomy_dict.map Prod.fst) with
      | none => none
      | some score_dict1 =>
        let score_dict := if organism_added then aerase score_dict1 organism else score_dict1
        match listMin (score_dict.map Prod.snd), listMax (score_dict.map Prod.snd) with
        | some minimal_distance, some maximal_distance =>
          let kcat_list := collectKcats score_dict species_kcat_mapping maximal_distance
            (maximal_distance + 1 - minimal_distance) minimal_distance []
          if protein_kcat_database ≠ [] then
            match _get_kcat_from_protein_kcat_database searched_direction reaction
                protein_kcat_database with
            | none => none
            | some (some protein_database_kcat) => some (kcat_list ++ [protein_database_kcat])
            | some none => some kcat_list
          else some kcat_list
        | _, _ => none

/-- Insertion step for the sort underlying `statistics.median`. -/
def insertSorted (x : ℚ) : List ℚ → List ℚ
  | [] => [x]
  | y :: ys => if x ≤ y then x :: y :: ys else y :: insertSorted x ys

/-- Ascending sort (insertion sort; structurally recursive so that concrete
runs evaluate). -/
def sortQ (l : List ℚ) : List ℚ := l.foldl (fun acc x => insertSorted x acc) []

/-- `statistics.median` (raises on the empty list). -/
def medianQ (l : List ℚ) : Option ℚ :=
  let s := sortQ l
  let n := s.length
  if n = 0 then none
  else if n % 2 = 1 then s.get? (n / 2)
  else
    match s.get? (n / 2 - 1), s.get? (n / 2) with
    | some a, some b => some ((a + b) / 2)
    | _, _ => none

/-- The final reduction of the kcat list: `statistics.mean` /
`statistics.median` / `random.choice` (the random draw is modelled by an
index parameter; all three raise on an empty list); any other selection
string makes the source `sys.exit`, modelled as `none`. -/
def selectKcat (type_of_kcat_selection : String) (random_choice_index : Nat)
    (kcat_list : List ℚ) : Option ℚ :=
  if type_of_kcat_selection = "mean" then
    if kcat_list.length = 0 then none
    else some (kcat_list.foldl (fun a b => a + b) 0 / (kcat_list.length : ℚ))
  else if type_of_kcat_selection = "median" then medianQ kcat_list
  else if type_of_kcat_selection = "random" then
    kcat_list.get? (random_choice_index % kcat_list.length)
  else none

/-- `_get_kcat`: run the metabolite-restricted search; if it yields fewer
than 10 samples, redo the search with the `"ALL"` pseudo-metabolite; then
reduce the final list. -/
def _get_kcat (searched_metabolites : List String)
    (complete_entry : List (String × List (String × List ℚ)))
    (organism : String) (searched_direction : String) (reaction : Reaction)
    (protein_kcat_database : List (String × ProteinKcatEntry))
    (taxonomyOf : String → List String)
    (type_of_kcat_selection : String) (random_choice_index : Nat) : Option ℚ :=
  match _get_kcat_list searched_metabolites complete_entry organism searched_direction
      reaction protein_kcat_database taxonomyOf with
  | none => none
  | some kcat_list =>
    match (if kcat_list.length < 10 then
        _get_kcat_list ["ALL"] complete_entry organism searched_direction reaction
          protein_kcat_database taxonomyOf
      else some kcat_list) with
    | none => none
    | some kcat_list2 => selectKcat type_of_kcat_selection random_choice_index kcat_list2

/-! # Theorems -/

/-! ## Association-list lemmas -/

theorem alookup_eq_none_iff {α β : Type} [DecidableEq α] (k : α) (m : List (α × β)) :
    alookup k m = none ↔ k ∉ m.map Prod.fst := by
  induction m with
  | nil => simp [alookup]
  | cons kv rest ih =>
    simp only [alookup, List.map_cons, List.mem_cons]
    by_cases h : kv.1 = k
    · simp [h]
    · simp only [if_neg h, ih]
      constructor
      · intro hk hor
        rcases hor with h1 | h2
        · exact h h1.symm
        · exact hk h2
      · intro hk hm
        exact hk (Or.inr hm)

theorem alookup_isSome_iff {α β : Type} [DecidableEq α] (k : α) (m : List (α × β)) :
    (alookup k m).isSome = true ↔ k ∈ m.map Prod.fst := by
  rw [Option.isSome_iff_ne_none]
  rw [ne_eq, alookup_eq_none_iff]
  simp

theorem alookup_mem {α β : Type} [DecidableEq α] {k : α} {m : List (α × β)} {v : β}
    (h : alookup k m = some v) : (k, v) ∈ m := by
  induction m with
  | nil => simp [alookup] at h
  | cons kv rest ih =>
    by_cases hk : kv.1 = k
    · rw [alookup, if_pos hk] at h
      have hv : kv.2 = v := Option.some.inj h
      have hkv : (k, v) = kv := by rw [← hk, ← hv]
      rw [hkv]
      exact List.mem_cons_self _ _
    · rw [alookup, if_neg hk] at h
      exact List.mem_cons_of_mem _ (ih h)

theorem alookup_map_values {α β γ : Type} [DecidableEq α] (g : α × β → γ)
    {k : α} {m : List (α × β)} {v : β} (h : alookup k m = some v) :
    alookup k (m.map (fun kv => (kv.1, g kv))) = some (g (k, v)) := by
  induction m with
  | nil => simp [alookup] at h
  | cons kv rest ih =>
    by_cases hk : kv.1 = k
    · simp [alookup, hk] at h ⊢
      subst hk h
      rfl
    · simp [alookup, hk] at h ⊢
      exact ih h

theorem keys_filter_subset {α β : Type} (p : α × β → Bool) (m : List (α × β)) :
    ((m.filter p).map Prod.fst) ⊆ m.map Prod.fst := by
  intro a ha
  simp only [List.mem_map] at ha ⊢
  obtain ⟨x, hx, hxa⟩ := ha
  exact ⟨x, List.mem_of_mem_filter hx, hxa⟩

theorem alookup_dictAddCombine (m : List (String × ℚ)) (k₀ : String) (v₀ : ℚ) (k : String) :
    alookup k (dictAddCombine m k₀ v₀) =
      if k = k₀ then
        match alookup k m with
        | some c => some (c + v₀)
        | none => some v₀
      else alookup k m := by
  induction m with
  | nil =>
    by_cases h : k = k₀
    · subst h
      simp [dictAddCombine, alookup]
    · have h' : ¬ k₀ = k := fun hc => h hc.symm
      simp [dictAddCombine, alookup, h, h']
  | cons kv rest ih =>
    by_cases h0 : kv.1 = k₀
    · by_cases h : k = k₀
      · subst h
        simp [dictAddCombine, alookup, h0]
      · have h1 : ¬ kv.1 = k := by rw [h0]; exact fun hc => h hc.symm
        have h2 : ¬ k₀ = k := fun hc => h hc.symm
        simp [dictAddCombine, alookup, h0, h1, h, h2]
    · by_cases h1 : kv.1 = k
      · have h2 : ¬ k = k₀ := by rw [← h1]; exact h0
        simp [dictAddCombine, alookup, h0, h1, h2]
      · simp [dictAddCombine, alookup, h0, h1, ih]

theorem keys_dictAddCombine (m : List (String × ℚ)) (k₀ : String) (v₀ : ℚ) :
    (dictAddCombine m k₀ v₀).map Prod.fst =
      if k₀ ∈ m.map Prod.fst then m.map Prod.fst else m.map Prod.fst ++ [k₀] := by
  induction m with
  | nil => simp [dictAddCombine]
  | cons kv rest ih =>
    by_cases h : kv.1 = k₀
    · have hmem : k₀ ∈ (kv :: rest).map Prod.fst := by
        simp [h.symm]
      simp [dictAddCombine, h, hmem]
    · have hne : ¬ k₀ = kv.1 := fun hc => h hc.symm
      by_cases hmem : k₀ ∈ rest.map Prod.fst
      · simp [dictAddCombine, h, ih, hmem, hne]
      · simp [dictAddCombine, h, ih, hmem, hne]

theorem keys_nodup_dictAddCombine {m : List (String × ℚ)} (k₀ : String) (v₀ : ℚ)
    (h : (m.map Prod.fst).Nodup) : ((dictAddCombine m k₀ v₀).map Prod.fst).Nodup := by
  rw [keys_dictAddCombine]
  by_cases hmem : k₀ ∈ m.map Prod.fst
  · simpa [hmem] using h
  · simp only [hmem, if_false]
    rw [List.nodup_append]
    refine ⟨h, List.nodup_singleton _, ?_⟩
    intro a ha hb
    rw [List.mem_singleton] at hb
    subst hb
    exact hmem ha

theorem alookup_foldl_dac (toAdd : List (String × ℚ)) (m : List (String × ℚ)) (k : String)
    (hnd : (toAdd.map Prod.fst).Nodup) :
    alookup k (toAdd.foldl (fun acc kv => dictAddCombine acc kv.1 kv.2) m) =
      match alookup k toAdd with
      | some d =>
        match alookup k m with
        | some c => some (c + d)
        | none => some d
      | none => alookup k m := by
  induction toAdd generalizing m with
  | nil => simp [alookup]
  | cons kv rest ih =>
    simp only [List.map_cons, List.nodup_cons] at hnd
    by_cases hk : kv.1 = k
    · have hknr : alookup k rest = none := by
        rw [alookup_eq_none_iff]
        rw [← hk]
        exact hnd.1
      simp only [List.foldl_cons]
      rw [ih _ hnd.2, hknr, alookup, if_pos hk, alookup_dictAddCombine]
      rw [if_pos hk.symm]
    · simp only [List.foldl_cons]
      rw [ih _ hnd.2, alookup, if_neg hk, alookup_dictAddCombine]
      have : ¬ k = kv.1 := fun hc => hk hc.symm
      rw [if_neg this]

theorem keys_nodup_foldl_dac (toAdd m : List (String × ℚ))
    (h : (m.map Prod.fst).Nodup) :
    (((toAdd.foldl (fun acc kv => dictAddCombine acc kv.1 kv.2) m)).map Prod.fst).Nodup := by
  induction toAdd generalizing m with
  | nil => exact h
  | cons kv rest ih =>
    simp only [List.foldl_cons]
    exact ih _ (keys_nodup_dictAddCombine kv.1 kv.2 h)

theorem alookup_filter_nonzero {m : List (String × ℚ)} (k : String)
    (hnd : (m.map Prod.fst).Nodup) :
    alookup k (m.filter nonzeroCoeff) =
      match alookup k m with
      | some c => if c = 0 then none else some c
      | none => none := by
  induction m with
  | nil => simp [alookup]
  | cons kv rest ih =>
    simp only [List.map_cons, List.nodup_cons] at hnd
    rw [List.filter_cons]
    by_cases hz : kv.2 = 0
    · have hpred : nonzeroCoeff kv = false := by simp [nonzeroCoeff, hz]
      rw [hpred]
      by_cases hk : kv.1 = k
      · have hknr : alookup k rest = none := by
          rw [alookup_eq_none_iff, ← hk]
          exact hnd.1
        have hfil : alookup k (rest.filter nonzeroCoeff) = none := by
          rw [alookup_eq_none_iff]
          intro hmem
          rw [alookup_eq_none_iff] at hknr
          exact hknr (keys_filter_subset nonzeroCoeff rest hmem)
        rw [alookup, if_pos hk]
        simp [hfil, hz]
      · rw [alookup, if_neg hk]
        exact ih hnd.2
    · have hpred : nonzeroCoeff kv = true := by simp [nonzeroCoeff, hz]
      rw [hpred]
      by_cases hk : kv.1 = k
      · simp [alookup, hk, hz]
      · simp only [if_true, alookup, if_neg hk]
        exact ih hnd.2

/-- The final coefficient stored by `add_metabolites`, looked up per key. -/
theorem alookup_add_metabolites (mets toAdd : List (String × ℚ)) (k : String)
    (hm : (mets.map Prod.fst).Nodup) (ha : (toAdd.map Prod.fst).Nodup) :
    alookup k (add_metabolites mets toAdd) =
      match
        (match alookup k toAdd with
         | some d =>
           match alookup k mets with
           | some c => some (c + d)
           | none => some d
         | none => alookup k mets) with
      | some c => if c = 0 then none else some c
      | none => none := by
  unfold add_metabolites
  rw [alookup_filter_nonzero k (keys_nodup_foldl_dac toAdd mets hm)]
  rw [alookup_foldl_dac toAdd mets k ha]

/-! ## Lemmas on `listMax` (Python `max`) -/

theorem foldl_max_mem {α : Type} [LinearOrder α] (xs : List α) (x : α) :
    xs.foldl max x = x ∨ xs.foldl max x ∈ xs := by
  induction xs generalizing x with
  | nil => left; rfl
  | cons y ys ih =>
    simp only [List.foldl_cons]
    rcases ih (max x y) with h | h
    · rcases max_choice x y with hm | hm
      · left; rw [h, hm]
      · right; rw [h, hm]; exact List.mem_cons_self _ _
    · right; exact List.mem_cons_of_mem _ h

theorem le_foldl_max_init {α : Type} [LinearOrder α] (xs : List α) (x : α) :
    x ≤ xs.foldl max x := by
  induction xs generalizing x with
  | nil => exact le_refl x
  | cons y ys ih =>
    simp only [List.foldl_cons]
    exact le_trans (le_max_left x y) (ih (max x y))

theorem le_foldl_max_mem {α : Type} [LinearOrder α] {xs : List α} {c : α}
    (hc : c ∈ xs) : ∀ x, c ≤ xs.foldl max x := by
  induction xs with
  | nil => cases hc
  | cons y ys ih =>
    intro x
    simp only [List.foldl_cons]
    rcases List.mem_cons.mp hc with h | h
    · subst h
      exact le_trans (le_max_right x c) (le_foldl_max_init ys (max x c))
    · exact ih h (max x y)

theorem listMax_spec {α : Type} [LinearOrder α] {l : List α} {m : α}
    (h : listMax l = some m) : m ∈ l ∧ ∀ c ∈ l, c ≤ m := by
  cases l with
  | nil => simp [listMax] at h
  | cons x xs =>
    rw [listMax] at h
    have hm : m = xs.foldl max x := (Option.some.inj h).symm
    subst hm
    constructor
    · rcases foldl_max_mem xs x with h1 | h1
      · rw [h1]; exact List.mem_cons_self _ _
      · exact List.mem_cons_of_mem _ h1
    · intro c hc
      rcases List.mem_cons.mp hc with h1 | h1
      · subst h1; exact le_foldl_max_init xs c
      · exact le_foldl_max_mem h1 x

/-! ## Auxiliary list lemmas for the reversibility splitter -/

theorem length_filter_partition {α : Type} (p : α → Bool) (l : List α) :
    (l.filter (fun x => ! p x)).length + (l.filter p).length = l.length := by
  induction l with
  | nil => simp
  | cons a rest ih =>
    cases h : p a <;> simp [List.filter_cons, h] <;> omega

theorem length_flatMap_pair {α β : Type} (f g : α → β) (l : List α) :
    (l.flatMap (fun x => [f x, g x])).length = 2 * l.length := by
  induction l with
  | nil => simp
  | cons a rest ih => simp [ih]; omega

/-- C2: for every reaction with `lower_bound < 0` and a non-empty gene rule
the reversibility splitter produces exactly two new reactions — a forward
copy `id+idAdd+"forward"` with bounds `[0, upper_bound]` and a reverse copy
`id+idAdd+"reverse"` with bounds `[0, -lower_bound]` — and removes the
original; every reaction with an empty gene rule or `lower_bound ≥ 0` is
left untouched.  (With `idAdd = "_"` and the reaction `"ACALD"` with bounds
`[-1000, 1000]` this gives exactly `ACALD_forward [0,1000]` and
`ACALD_reverse [0,1000]`, `ACALD` removed — see the witness.) -/
theorem C2_reversibility_split (reactions : List Reaction) (idAdd : String) (r : Reaction)
    (hmem : r ∈ reactions) (hlb : r.lower_bound < 0) (hgr : r.gene_reaction_rule ≠ "") :
    forwardReaction idAdd r ∈ get_irreversible_model reactions idAdd ∧
    reverseReaction idAdd r ∈ get_irreversible_model reactions idAdd ∧
    r ∉ get_irreversible_model reactions idAdd ∧
    (forwardReaction idAdd r).id = r.id ++ idAdd ++ "forward" ∧
    (forwardReaction idAdd r).lower_bound = 0 ∧
    (forwardReaction idAdd r).upper_bound = r.upper_bound ∧
    (reverseReaction idAdd r).id = r.id ++ idAdd ++ "reverse" ∧
    (reverseReaction idAdd r).lower_bound = 0 ∧
    (reverseReaction idAdd r).upper_bound = -r.lower_bound ∧
    (∀ r' ∈ reactions, r'.gene_reaction_rule = "" ∨ 0 ≤ r'.lower_bound →
      r' ∈ get_irreversible_model reactions idAdd) ∧
    (get_irreversible_model reactions idAdd).length =
      reactions.length + (reactions.filter splitCondition).length := by
  have hsplit : splitCondition r = true := by
    simp [splitCondition, hlb, hgr]
  have hfil : r ∈ reactions.filter splitCondition := List.mem_filter.mpr ⟨hmem, hsplit⟩
  refine ⟨?_, ?_, ?_, rfl, rfl, rfl, rfl, rfl, rfl, ?_, ?_⟩
  · apply List.mem_append.mpr
    right
    exact List.mem_flatMap.mpr ⟨r, hfil, by simp⟩
  · apply List.mem_append.mpr
    right
    exact List.mem_flatMap.mpr ⟨r, hfil, by simp⟩
  · intro hr
    rcases List.mem_append.mp hr with hr | hr
    · have h2 := (List.mem_filter.mp hr).2
      rw [hsplit] at h2
      simp at h2
    · obtain ⟨x, _, hx2⟩ := List.mem_flatMap.mp hr
      simp only [List.mem_cons, List.not_mem_nil, or_false] at hx2
      have hl0 : r.lower_bound = 0 := by
        rcases hx2 with h | h
        · rw [h]; rfl
        · rw [h]; rfl
      rw [hl0] at hlb
      exact absurd hlb (lt_irrefl 0)
  · intro r' hr' hcond
    have hns : splitCondition r' = false := by
      rcases hcond with h | h
      · simp [splitCondition, h]
      · simp [splitCondition, not_lt.mpr h]
    apply List.mem_append.mpr
    left
    exact List.mem_filter.mpr ⟨hr', by rw [hns]; rfl⟩
  · rw [get_irreversible_model, List.length_append, length_flatMap_pair]
    have := length_filter_partition splitCondition reactions
    omega

/-- C2 witness: the `"ACALD"` scenario of the specification, with
`idAdd = "_"`. -/
theorem C2_witness :
    (let acald : Reaction :=
      { id := "ACALD"
        lower_bound := -1000
        upper_bound := 1000
        gene_reaction_rule := "b0351 or b1241"
        metabolites := [("acald_c", -1), ("accoa_c", 1)] }
     forwardReaction "_" acald ∈ get_irreversible_model [acald] "_" ∧
     reverseReaction "_" acald ∈ get_irreversible_model [acald] "_" ∧
     acald ∉ get_irreversible_model [acald] "_" ∧
     (forwardReaction "_" acald).id = acald.id ++ "_" ++ "forward" ∧
     (forwardReaction "_" acald).lower_bound = 0 ∧
     (forwardReaction "_" acald).upper_bound = acald.upper_bound ∧
     (reverseReaction "_" acald).id = acald.id ++ "_" ++ "reverse" ∧
     (reverseReaction "_" acald).lower_bound = 0 ∧
     (reverseReaction "_" acald).upper_bound = -acald.lower_bound ∧
     (∀ r' ∈ [acald], r'.gene_reaction_rule = "" ∨ 0 ≤ r'.lower_bound →
       r' ∈ get_irreversible_model [acald] "_") ∧
     (get_irreversible_model [acald] "_").length =
       [acald].length + ([acald].filter splitCondition).length) :=
  C2_reversibility_split _ "_" _ (List.mem_singleton.mpr rfl) (by decide) (by decide)

/-- C8: the reversibility splitter is idempotent — every reaction of its
output has an empty gene rule or a non-negative lower bound, so a second run
changes nothing. -/
theorem C8_idempotent (reactions : List Reaction) (idAdd : String) :
    get_irreversible_model (get_irreversible_model reactions idAdd) idAdd =
      get_irreversible_model reactions idAdd := by
  have hall : ∀ x ∈ get_irreversible_model reactions idAdd, splitCondition x = false := by
    intro x hx
    rcases List.mem_append.mp hx with hx | hx
    · have h2 := (List.mem_filter.mp hx).2
      cases h : splitCondition x
      · rfl
      · rw [h] at h2; simp at h2
    · obtain ⟨y, _, hy2⟩ := List.mem_flatMap.mp hx
      simp only [List.mem_cons, List.not_mem_nil, or_false] at hy2
      have hl0 : x.lower_bound = 0 := by
        rcases hy2 with h | h
        · rw [h]; rfl
        · rw [h]; rfl
      simp [splitCondition, hl0]
  have h1 : (get_irreversible_model reactions idAdd).filter (fun r => ! splitCondition r) =
      get_irreversible_model reactions idAdd := by
    apply List.filter_eq_self.mpr
    intro a ha
    rw [hall a ha]
    rfl
  have h2 : (get_irreversible_model reactions idAdd).filter splitCondition = [] := by
    apply List.filter_eq_nil_iff.mpr
    intro a ha
    rw [hall a ha]
    simp
  conv_lhs => rw [get_irreversible_model]
  rw [h1, h2]
  simp

/-- C5 counterexample: for the reaction `"ACALD"` with ordinary metabolite
`acald_c` of coefficient `-1`, the reverse copy's FINAL stoichiometric
coefficient is `1` (the negated original), not `(-1) * (-2) = 2` as the
claim states: cobra's `add_metabolites` ADDS the `-2`-scaled delta to the
stored coefficient instead of replacing it. -/
theorem C5_counterexample :
    alookup "acald_c" (reverseReaction "_"
      { id := "ACALD"
        lower_bound := -1000
        upper_bound := 1000
        gene_reaction_rule := "b0351"
        metabolites := [("acald_c", -1)] }).metabolites = some 1 ∧
    ¬ alookup "acald_c" (reverseReaction "_"
      { id := "ACALD"
        lower_bound := -1000
        upper_bound := 1000
        gene_reaction_rule := "b0351"
        metabolites := [("acald_c", -1)] }).metabolites = some ((-1) * (-2)) := by
  decide

/-- C5 (amended): for every reversible reaction split by the splitter and
every ordinary metabolite (id not prefixed `armm_`) with non-zero
coefficient `c`, the DELTA handed to `add_metabolites` for the reverse copy
is `c * (-2)`; since `add_metabolites` combines, the reverse copy's FINAL
coefficient is `-c` (the negated original), and the forward copy keeps `c`. -/
theorem C5_reverse_coefficient_amended (idAdd : String) (r : Reaction) (met : String) (c : ℚ)
    (hnd : (r.metabolites.map Prod.fst).Nodup)
    (hc : alookup met r.metabolites = some c) (hc0 : c ≠ 0)
    (hmet : strStartsWith met "armm_" = false) :
    alookup met (reverseDeltas r) = some (c * (-2)) ∧
    alookup met (reverseReaction idAdd r).metabolites = some (-c) ∧
    alookup met (forwardReaction idAdd r).metabolites = some c := by
  have hndr : ((reverseDeltas r).map Prod.fst).Nodup := by
    unfold reverseDeltas
    simpa [List.map_map, Function.comp] using hnd
  have hndf : ((forwardDeltas r).map Prod.fst).Nodup := by
    unfold forwardDeltas
    simpa [List.map_map, Function.comp] using hnd
  have hdelta : alookup met (reverseDeltas r) = some (c * (-2)) := by
    unfold reverseDeltas
    have h := alookup_map_values
      (g := fun kv =>
        if ¬ strStartsWith kv.1 "armm_" then kv.2 * (-2)
        else if strEndsWith kv.1 "reverse" then kv.2 * 0
        else if strEndsWith kv.1 "forward" then kv.2 * (-1)
        else kv.2) hc
    simpa [hmet] using h
  have hdeltaf : alookup met (forwardDeltas r) = some 0 := by
    unfold forwardDeltas
    have h := alookup_map_values
      (g := fun kv =>
        if strStartsWith kv.1 "armm_" then
          (if strEndsWith kv.1 "reverse" then (-1 : ℚ) else 0)
        else 0) hc
    simpa [hmet] using h
  refine ⟨hdelta, ?_, ?_⟩
  · show alookup met (add_metabolites r.metabolites (reverseDeltas r)) = some (-c)
    rw [alookup_add_metabolites _ _ _ hnd hndr, hdelta, hc]
    have he : c + c * (-2) = -c := by ring
    show (if c + c * (-2) = 0 then none else some (c + c * (-2))) = some (-c)
    rw [he, if_neg (by simpa using hc0)]
  · show alookup met (add_metabolites r.metabolites (forwardDeltas r)) = some c
    rw [alookup_add_metabolites _ _ _ hnd hndf, hdeltaf, hc]
    show (if c + 0 = 0 then none else some (c + 0)) = some c
    rw [add_zero, if_neg hc0]

/-- C5 witness: the amended statement at the `"ACALD"` input (original
coefficient `-1`: delta `2`, reverse copy final coefficient `1`, forward
copy keeps `-1`). -/
theorem C5_witness :
    (let acald : Reaction :=
      { id := "ACALD"
        lower_bound := -1000
        upper_bound := 1000
        gene_reaction_rule := "b0351"
        metabolites := [("acald_c", -1)] }
     alookup "acald_c" (reverseDeltas acald) = some ((-1) * (-2)) ∧
     alookup "acald_c" (reverseReaction "_" acald).metabolites = some (-(-1)) ∧
     alookup "acald_c" (forwardReaction "_" acald).metabolites = some (-1)) :=
  C5_reverse_coefficient_amended "_" _ "acald_c" (-1)
    (by decide) (by decide) (by decide) (by decide)

/-! ## Lemmas for the measured-protein splitter -/

theorem string_data_append (a b : String) : (a ++ b).data = a.data ++ b.data := rfl

theorem string_append_ne_left (a b : String) (hb : b.data ≠ []) : ¬ a ++ b = a := by
  intro h
  have hd : (a ++ b).data = a.data := congrArg String.data h
  rw [string_data_append] at hd
  have hlen := congrArg List.length hd
  rw [List.length_append] at hlen
  have hb0 : b.data.length = 0 := by omega
  exact hb (List.length_eq_zero.mp hb0)

theorem string_append_append_ne (a b c : String) (hb : b.data ≠ []) : ¬ a ++ b ++ c = a := by
  intro h
  have hd : (a ++ b ++ c).data = a.data := congrArg String.data h
  rw [string_data_append, string_data_append] at hd
  have hlen := congrArg List.length hd
  rw [List.length_append, List.length_append] at hlen
  have hb0 : b.data.length = 0 := by omega
  exact hb (List.length_eq_zero.mp hb0)

theorem mem_eraseById {x : Reaction} {l : List Reaction} {rid : String}
    (hx : x ∈ l) (hne : ¬ x.id = rid) : x ∈ eraseById l rid := by
  induction l with
  | nil => cases hx
  | cons r0 rest ih =>
    rw [eraseById]
    by_cases h0 : r0.id = rid
    · rw [if_pos h0]
      rcases List.mem_cons.mp hx with h | h
      · subst h; exact absurd h0 hne
      · exact h
    · rw [if_neg h0]
      rcases List.mem_cons.mp hx with h | h
      · subst h; exact List.mem_cons_self _ _
      · exact List.mem_cons_of_mem _ (ih h)

/-- C9: every reaction whose (mapped) gene rule references a protein without
an entry in the protein mass mapping is skipped by the measured-protein
splitter: its processing step returns the state completely unchanged and
raises no error. -/
theorem C9_skip_massless (conc mass : List (String × ℚ)) (excluded : List String)
    (s : SplitState) (rid : String) (rule : List Alternative) (p : String)
    (hfind : (s.model.reactions.find? (fun x => decide (x.id = rid))).isSome = true)
    (hrule : alookup rid s.rules = some rule)
    (hp : p ∈ ruleProteins rule) (hmass : p ∉ mass.map Prod.fst) :
    splitStep conc mass excluded s rid = some s := by
  obtain ⟨r, hr⟩ := Option.isSome_iff_exists.mp hfind
  have havail : allAvailable mass rule = false := by
    cases h : allAvailable mass rule
    · rfl
    · exfalso
      rw [allAvailable, List.all_eq_true] at h
      rw [ruleProteins] at hp
      obtain ⟨alt, halt, hpalt⟩ := List.mem_flatMap.mp hp
      have h2 := h alt halt
      cases alt with
      | single q =>
        simp only [List.mem_singleton] at hpalt
        subst hpalt
        rw [decide_eq_true_eq] at h2
        exact hmass h2
      | complex ps =>
        rw [List.all_eq_true] at h2
        have h3 := h2 p hpalt
        rw [decide_eq_true_eq] at h3
        exact hmass h3
  simp only [splitStep, hr, hrule]
  by_cases hexc : rid ∈ excluded
  · rw [if_pos hexc]
  · rw [if_neg hexc, havail]
    simp

/-- C9 witness: a one-reaction model whose gene rule references `G1` while
the protein mass mapping is empty — the step is the identity. -/
theorem C9_witness :
    (let s9 : SplitState :=
      { model := { reactions := [{ id := "R"
                                   lower_bound := 0
                                   upper_bound := 10
                                   gene_reaction_rule := "G1"
                                   metabolites := [("a_c", -1)] }] }
        rules := [("R", [Alternative.single "G1"])]
        stoich := [("R", [(Alternative.single "G1", [("G1", 1)])])] }
     splitStep [] [] [] s9 "R" = some s9) :=
  C9_skip_massless [] [] [] _ "R" [Alternative.single "G1"] "G1"
    (by decide) (by decide) (by decide) (by decide)

theorem measuredCopies_spec (reaction : Reaction) (arm : Bool)
    (stoichR : List (Alternative × List (String × ℚ))) :
    ∀ (l : List Alternative) (n : Nat) (cs : List (Reaction × Alternative × List (String × ℚ))),
      measuredCopies reaction arm stoichR n l = some cs →
      ∀ i, (hi : i < l.length) →
        ∃ c, c ∈ cs ∧ c.1.id = reaction.id ++ "_GPRSPLIT_" ++ toString (n + i) ∧
          c.1.gene_reaction_rule = measuredRuleString (l.get ⟨i, hi⟩) := by
  intro l
  induction l with
  | nil =>
    intro n cs h i hi
    simp at hi
  | cons e rest ih =>
    intro n cs h i hi
    rw [measuredCopies] at h
    cases hse : stoichEntryFor stoichR e with
    | none => rw [hse] at h; cases h
    | some inner =>
      rw [hse] at h
      cases hmc : measuredCopies reaction arm stoichR (n + 1) rest with
      | none => rw [hmc] at h; cases h
      | some tail =>
        rw [hmc] at h
        have hcs : cs = ({ reaction with
            id := reaction.id ++ "_GPRSPLIT_" ++ toString n
            gene_reaction_rule := measuredRuleString e
            metabolites := newMetabolites reaction arm }, e, inner) :: tail :=
          (Option.some.inj h).symm
        subst hcs
        cases i with
        | zero =>
          exact ⟨_, List.mem_cons_self _ _, rfl, rfl⟩
        | succ j =>
          have hj : j < rest.length := by simpa using hi
          obtain ⟨c, hc, hid, hrule⟩ := ih (n + 1) tail hmc j hj
          refine ⟨c, List.mem_cons_of_mem _ hc, ?_, ?_⟩
          · have hadd : (n + 1) + j = n + (j + 1) := by omega
            rw [hid, hadd]
          · simpa using hrule

/-- C10 (implicit): when the measured-protein splitter splits a reaction
that has at least one unmeasured alternative, the emitted combined
unmeasured reaction `id+"_GPRSPLIT_1"` keeps the original reaction's
`gene_reaction_rule` string unchanged — the freshly built OR-combination of
the unmeasured alternatives is assigned to the `gene_reaction_rule`
attribute of the MODEL object, never to the new reaction; only the
measured-alternative copies get a rewritten gene rule. -/
theorem C10_unmeasured_rule_preserved
    (conc mass : List (String × ℚ)) (excluded : List String)
    (s : SplitState) (rid : String) (reaction : Reaction) (rule : List Alternative)
    (stoichR : List (Alternative × List (String × ℚ)))
    (hfind : s.model.reactions.find? (fun x => decide (x.id = rid)) = some reaction)
    (hrule : alookup rid s.rules = some rule)
    (hexc : rid ∉ excluded)
    (havail : allAvailable mass rule = true)
    (hmeas : ¬ rule.filter (fun e => isMeasured conc e) = [])
    (hunm : ¬ orJoin (rule.filter (fun e => ! isMeasured conc e)) = "")
    (hst : alookup rid s.stoich = some stoichR)
    (hus : (omapM (fun e => (stoichEntryFor stoichR e).map (fun inner => (e, inner)))
        (rule.filter (fun e => ! isMeasured conc e))).isSome = true)
    (hmc : (measuredCopies reaction
        (decide (1 ≤ (rule.filter (fun e => ! isMeasured conc e)).length) ||
          decide (1 < (rule.filter (fun e => isMeasured conc e)).length))
        stoichR 2 (rule.filter (fun e => isMeasured conc e))).isSome = true) :
    ∃ s', splitStep conc mass excluded s rid = some s' ∧
      (∃ u ∈ s'.model.reactions,
          u.id = reaction.id ++ "_GPRSPLIT_1" ∧
          u.gene_reaction_rule = reaction.gene_reaction_rule) ∧
      s'.model.gene_reaction_rule = orJoin (rule.filter (fun e => ! isMeasured conc e)) ∧
      (∀ i, (hi : i < (rule.filter (fun e => isMeasured conc e)).length) →
        ∃ mr ∈ s'.model.reactions,
          mr.id = reaction.id ++ "_GPRSPLIT_" ++ toString (2 + i) ∧
          mr.gene_reaction_rule =
            measuredRuleString ((rule.filter (fun e => isMeasured conc e)).get ⟨i, hi⟩)) := by
  obtain ⟨us, hus'⟩ := Option.isSome_iff_exists.mp hus
  obtain ⟨copies, hmc'⟩ := Option.isSome_iff_exists.mp hmc
  have hrid : reaction.id = rid := by
    have h := List.find?_some hfind
    rwa [decide_eq_true_eq] at h
  simp only [splitStep, hfind, hrule, hst, hus']
  rw [if_neg hexc, havail]
  simp only [if_true, if_neg hmeas, if_pos hunm]
  rw [hmc']
  refine ⟨_, rfl, ?_, ?_, ?_⟩
  · refine ⟨{ reaction with
        id := reaction.id ++ "_GPRSPLIT_1"
        metabolites := newMetabolites reaction
          (decide (1 ≤ (rule.filter (fun e => ! isMeasured conc e)).length) ||
            decide (1 < (rule.filter (fun e => isMeasured conc e)).length)) }, ?_, rfl, rfl⟩
    apply mem_eraseById
    · apply List.mem_append.mpr
      left
      apply List.mem_append.mpr
      right
      exact List.mem_singleton.mpr rfl
    · rw [← hrid]
      exact string_append_ne_left reaction.id "_GPRSPLIT_1" (by decide)
  · rfl
  · intro i hi
    obtain ⟨c, hc, hid, hrule2⟩ :=
      measuredCopies_spec reaction _ stoichR _ 2 copies hmc' i hi
    refine ⟨c.1, ?_, hid, hrule2⟩
    apply mem_eraseById
    · apply List.mem_append.mpr
      right
      exact List.mem_map_of_mem _ hc
    · rw [hid, ← hrid]
      exact string_append_append_ne reaction.id "_GPRSPLIT_" (toString (2 + i)) (by decide)

/-- C10 witness: reaction `"R"` with rule `G1 or G2`, `G2` measured, `G1`
unmeasured, both with known masses. -/
theorem C10_witness :
    (let R0 : Reaction :=
      { id := "R"
        lower_bound := 0
        upper_bound := 10
        gene_reaction_rule := "G1 or G2"
        metabolites := [("a_c", -1), ("b_c", 1)] }
     let s0 : SplitState :=
      { model := { reactions := [R0] }
        rules := [("R", [Alternative.single "G1", Alternative.single "G2"])]
        stoich := [("R", [(Alternative.single "G1", [("G1", 1)]),
                          (Alternative.single "G2", [("G2", 1)])])] }
     let rule : List Alternative := [Alternative.single "G1", Alternative.single "G2"]
     let conc : List (String × ℚ) := [("G2", 1)]
     ∃ s', splitStep conc [("G1", 10), ("G2", 20)] [] s0 "R" = some s' ∧
       (∃ u ∈ s'.model.reactions,
           u.id = R0.id ++ "_GPRSPLIT_1" ∧
           u.gene_reaction_rule = R0.gene_reaction_rule) ∧
       s'.model.gene_reaction_rule = orJoin (rule.filter (fun e => ! isMeasured conc e)) ∧
       (∀ i, (hi : i < (rule.filter (fun e => isMeasured conc e)).length) →
         ∃ mr ∈ s'.model.reactions,
           mr.id = R0.id ++ "_GPRSPLIT_" ++ toString (2 + i) ∧
           mr.gene_reaction_rule =
             measuredRuleString ((rule.filter (fun e => isMeasured conc e)).get ⟨i, hi⟩))) :=
  C10_unmeasured_rule_preserved [("G2", 1)] [("G1", 10), ("G2", 20)] []
    { model := { reactions := [{ id := "R"
                                 lower_bound := 0
                                 upper_bound := 10
                                 gene_reaction_rule := "G1 or G2"
                                 metabolites := [("a_c", -1), ("b_c", 1)] }] }
      rules := [("R", [Alternative.single "G1", Alternative.single "G2"])]
      stoich := [("R", [(Alternative.single "G1", [("G1", 1)]),
                        (Alternative.single "G2", [("G2", 1)])])] }
    "R"
    { id := "R"
      lower_bound := 0
      upper_bound := 10
      gene_reaction_rule := "G1 or G2"
      metabolites := [("a_c", -1), ("b_c", 1)] }
    [Alternative.single "G1", Alternative.single "G2"]
    [(Alternative.single "G1", [("G1", 1)]), (Alternative.single "G2", [("G2", 1)])]
    (by decide) (by decide) (by decide) (by decide) (by decide) (by decide) (by decide)
    (by decide) (by decide)

/-! ## Lemmas for the prot_pool stoichiometry selection -/

theorem omapM_length {α β : Type} (f : α → Option β) :
    ∀ {l : List α} {ys : List β}, omapM f l = some ys → ys.length = l.length := by
  intro l
  induction l with
  | nil =>
    intro ys h
    rw [omapM] at h
    rw [← Option.some.inj h]
    rfl
  | cons x xs ih =>
    intro ys h
    rw [omapM] at h
    cases hx : f x with
    | none => rw [hx] at h; cases h
    | some y =>
      rw [hx] at h
      cases hxs : omapM f xs with
      | none => rw [hxs] at h; cases h
      | some zs =>
        rw [hxs] at h
        rw [← Option.some.inj h]
        simp [ih hxs]

/-- The per-alternative stoichiometry the source computes is exactly the
specification's candidate `-(mass_sum)/(kcat*3600)`. -/
theorem isozyme_stoichiometry_eq_candidate
    (stoichR : List (Alternative × List (String × ℚ)))
    (massMap : List (String × ℚ)) (reaction_kcat : ℚ) (alt : Alternative) :
    isozyme_stoichiometry stoichR massMap reaction_kcat alt =
      (isozyme_mass_sum stoichR massMap alt).map
        (fun mass_sum => prot_pool_candidate mass_sum reaction_kcat) := by
  have hterm : ∀ a k : ℚ, a / (k * 3600) * (-1) = -a / (k * 3600) := by
    intro a k
    rw [mul_neg_one, neg_div]
  cases alt with
  | single p =>
    rw [isozyme_stoichiometry, isozyme_mass_sum]
    cases h1 : alookup (Alternative.single p) stoichR with
    | none => rfl
    | some inner =>
      dsimp only
      cases h2 : alookup p inner with
      | none => rfl
      | some number_units =>
        dsimp only
        cases h3 : alookup p massMap with
        | none => rfl
        | some mass =>
          dsimp only [Option.map_some']
          rw [hterm]
          rfl
  | complex ps =>
    rw [isozyme_stoichiometry, isozyme_mass_sum]
    cases h1 : alookup (Alternative.complex ps) stoichR with
    | none => rfl
    | some inner =>
      have key : ∀ (l : List String) (acc1 acc2 : ℚ),
          acc1 = -acc2 / (reaction_kcat * 3600) →
          ofoldlM (fun acc p =>
            match alookup p inner with
            | none => none
            | some number_units =>
              match alookup p massMap with
              | none => none
              | some mass =>
                some (acc + number_units * (mass / 1000) / (reaction_kcat * 3600) * (-1))) acc1 l =
          (ofoldlM (fun acc p =>
            match alookup p inner with
            | none => none
            | some number_units =>
              match alookup p massMap with
              | none => none
              | some mass => some (acc + number_units * (mass / 1000))) acc2 l).map
            (fun mass_sum => prot_pool_candidate mass_sum reaction_kcat) := by
        intro l
        induction l with
        | nil =>
          intro acc1 acc2 hacc
          rw [ofoldlM, ofoldlM, hacc]
          rfl
        | cons p rest ih =>
          intro acc1 acc2 hacc
          rw [ofoldlM, ofoldlM]
          cases h2 : alookup p inner with
          | none => rfl
          | some number_units =>
            dsimp only
            cases h3 : alookup p massMap with
            | none => rfl
            | some mass =>
              dsimp only
              apply ih
              rw [hacc, hterm, div_add_div_same, ← neg_add]
      have h0 : (0 : ℚ) = -0 / (reaction_kcat * 3600) := by
        rw [neg_zero, zero_div]
      exact key ps 0 0 h0

/-- C1: for every reaction processed by the sMOMENT assembler, the prot_pool
pseudo-metabolite stoichiometry injected into the reaction equals the
maximum (least-negative) of the per-alternative candidate stoichiometries
`-(mass_sum)/(kcat*3600)`; in particular, among two candidates with equal
(non-negative) mass sum and kcats `k1 < k2`, the maximum is the one computed
from `k2`. -/
theorem C1_prot_pool_max_stoichiometry
    (stoichMap : List (String × List (Alternative × List (String × ℚ))))
    (massMap : List (String × ℚ)) (rid : String)
    (gene_rule : List Alternative) (reaction_kcat : ℚ)
    (stoichR : List (Alternative × List (String × ℚ)))
    (hne : gene_rule ≠ [])
    (hst : alookup rid stoichMap = some stoichR)
    (hok : (omapM (isozyme_stoichiometry stoichR massMap reaction_kcat) gene_rule).isSome
      = true) :
    (∃ stoichiometries m,
      omapM (isozyme_stoichiometry stoichR massMap reaction_kcat) gene_rule =
        some stoichiometries ∧
      smoment_prot_pool_stoichiometry stoichMap massMap rid gene_rule reaction_kcat = some m ∧
      m ∈ stoichiometries ∧ (∀ c ∈ stoichiometries, c ≤ m)) ∧
    (∀ alt, isozyme_stoichiometry stoichR massMap reaction_kcat alt =
      (isozyme_mass_sum stoichR massMap alt).map
        (fun mass_sum => prot_pool_candidate mass_sum reaction_kcat)) ∧
    (∀ mass_sum k1 k2 : ℚ, 0 ≤ mass_sum → 0 < k1 → k1 < k2 →
      max (prot_pool_candidate mass_sum k1) (prot_pool_candidate mass_sum k2) =
        prot_pool_candidate mass_sum k2) := by
  obtain ⟨cands, hcands⟩ := Option.isSome_iff_exists.mp hok
  refine ⟨?_, fun alt => isozyme_stoichiometry_eq_candidate stoichR massMap reaction_kcat alt,
    ?_⟩
  · have hlen : cands.length = gene_rule.length := omapM_length _ hcands
    have hcne : cands ≠ [] := by
      intro hnil
      rw [hnil] at hlen
      exact hne (List.length_eq_zero.mp hlen.symm)
    obtain ⟨c0, cs, hcons⟩ := List.exists_cons_of_ne_nil hcne
    have hmax : listMax cands = some (cs.foldl max c0) := by
      rw [hcons, listMax]
    have hspec := listMax_spec hmax
    refine ⟨cands, cs.foldl max c0, hcands, ?_, hspec.1, hspec.2⟩
    rw [smoment_prot_pool_stoichiometry, hst]
    dsimp only
    rw [hcands]
    exact hmax
  · intro mass_sum k1 k2 hm hk1 hk2
    apply max_eq_right
    rw [prot_pool_candidate, prot_pool_candidate, neg_div, neg_div, neg_le_neg_iff]
    have h1 : (0 : ℚ) < k1 * 3600 := mul_pos hk1 (by norm_num)
    have h2 : (0 : ℚ) < k2 * 3600 := mul_pos (lt_trans hk1 hk2) (by norm_num)
    rw [div_le_div_iff₀ h2 h1]
    nlinarith [mul_nonneg hm (sub_nonneg.mpr hk2.le)]

/-- C1 witness: a reaction with two single-protein alternatives of equal
mass 40 kDa, unit count 1 and kcat 100: both candidates are
`-(40/1000)/(100*3600) = -1/9000000` and the injected stoichiometry is
their maximum. -/
theorem C1_witness :
    (∃ stoichiometries m,
      omapM (isozyme_stoichiometry
          [(Alternative.single "G1", [("G1", 1)]), (Alternative.single "G2", [("G2", 1)])]
          [("G1", 40), ("G2", 40)] 100)
        [Alternative.single "G1", Alternative.single "G2"] = some stoichiometries ∧
      smoment_prot_pool_stoichiometry
        [("R", [(Alternative.single "G1", [("G1", 1)]), (Alternative.single "G2", [("G2", 1)])])]
        [("G1", 40), ("G2", 40)] "R"
        [Alternative.single "G1", Alternative.single "G2"] 100 = some m ∧
      m ∈ stoichiometries ∧ (∀ c ∈ stoichiometries, c ≤ m)) ∧
    (∀ alt, isozyme_stoichiometry
        [(Alternative.single "G1", [("G1", 1)]), (Alternative.single "G2", [("G2", 1)])]
        [("G1", 40), ("G2", 40)] 100 alt =
      (isozyme_mass_sum
          [(Alternative.single "G1", [("G1", 1)]), (Alternative.single "G2", [("G2", 1)])]
          [("G1", 40), ("G2", 40)] alt).map
        (fun mass_sum => prot_pool_candidate mass_sum 100)) ∧
    (∀ mass_sum k1 k2 : ℚ, 0 ≤ mass_sum → 0 < k1 → k1 < k2 →
      max (prot_pool_candidate mass_sum k1) (prot_pool_candidate mass_sum k2) =
        prot_pool_candidate mass_sum k2) :=
  C1_prot_pool_max_stoichiometry
    [("R", [(Alternative.single "G1", [("G1", 1)]), (Alternative.single "G2", [("G2", 1)])])]
    [("G1", 40), ("G2", 40)] "R"
    [Alternative.single "G1", Alternative.single "G2"] 100
    [(Alternative.single "G1", [("G1", 1)]), (Alternative.single "G2", [("G2", 1)])]
    (by decide) (by decide) (by decide)

/-! ## Lemmas for the kcat database combiner -/

/-- Looking up a key in a key-preserving `filterMap` of a unique-keyed map
gives exactly the image of that key's entry. -/
theorem alookup_filterMap_keyPreserving {α β γ : Type} [DecidableEq α]
    (f : α × β → Option (α × γ)) (hf : ∀ p q, f p = some q → q.1 = p.1) :
    ∀ (m : List (α × β)), (m.map Prod.fst).Nodup →
      ∀ (k : α) (v : β), (k, v) ∈ m →
        alookup k (m.filterMap f) = (f (k, v)).map Prod.snd := by
  intro m
  induction m with
  | nil =>
    intro _ k v hmem
    cases hmem
  | cons kv rest ih =>
    intro hnd k v hmem
    simp only [List.map_cons, List.nodup_cons] at hnd
    have hsub : ∀ a, a ∈ (rest.filterMap f).map Prod.fst → a ∈ rest.map Prod.fst := by
      intro a ha
      simp only [List.mem_map] at ha ⊢
      obtain ⟨q, hq, hqa⟩ := ha
      obtain ⟨p, hp, hfp⟩ := List.mem_filterMap.mp hq
      exact ⟨p, hp, by rw [← hqa, hf p q hfp]⟩
    rcases List.mem_cons.mp hmem with heq | hmem'
    · have hk : kv.1 = k := by rw [← heq]
      rw [List.filterMap_cons]
      cases hf0 : f kv with
      | none =>
        have hnone : alookup k (rest.filterMap f) = none := by
          rw [alookup_eq_none_iff]
          intro hmem2
          exact hnd.1 (hk ▸ hsub k hmem2)
        rw [heq, hf0]
        simpa using hnone
      | some q =>
        have hq1 : q.1 = k := (hf kv q hf0).trans hk
        rw [heq, hf0]
        show (if q.1 = k then some q.2 else alookup k (rest.filterMap f)) = some q.2
        rw [if_pos hq1]
    · have hkne : ¬ kv.1 = k := by
        intro hc
        apply hnd.1
        rw [hc]
        exact List.mem_map_of_mem Prod.fst hmem'
      rw [List.filterMap_cons]
      cases hf0 : f kv with
      | none => exact ih hnd.2 k v hmem'
      | some q =>
        have hq1 : ¬ q.1 = k := by
          rw [hf kv q hf0]
          exact hkne
        rw [alookup, if_neg hq1]
        exact ih hnd.2 k v hmem'

theorem combineEntry_key (sabio : List (String × KcatEntry)) :
    ∀ p q, combineEntry sabio p = some q → q.1 = p.1 := by
  intro p q h
  rw [combineEntry] at h
  split at h
  · cases h
  · split at h
    · split at h
      · cases h
      · rw [← Option.some.inj h]
    · split at h
      · split at h
        · cases h
        · rw [← Option.some.inj h]
      · rw [← Option.some.inj h]

/-- C3 counterexample: the EC number `"1.1.1.1"` present only in SABIO-RK,
non-wildcarded there, is absent from the combined database — the combiner
iterates over BRENDA's keys only, so the claim's "present in either input
source" domain is wrong. -/
theorem C3_counterexample :
    alookup "1.1.1.1" (create_combined_kcat_database
      [("1.1.1.1", { wildcard := false, mets := [("sub", [("Org", [1])])] })] []) = none ∧
    alookup "1.1.1.1"
      [("1.1.1.1", ({ wildcard := false, mets := [("sub", [("Org", [1])])] } : KcatEntry))]
      = some { wildcard := false, mets := [("sub", [("Org", [1])])] } ∧
    ({ wildcard := false, mets := [("sub", [("Org", [1])])] } : KcatEntry).wildcard = false := by
  decide

/-- C3 (amended): restricted to EC numbers present in the BRENDA database
(the combiner iterates only BRENDA's keys; an EC number absent from SABIO-RK
counts as wildcarded there): if both sources are wildcarded, the EC number
is absent from the output; if exactly one is non-wildcarded, the output
entry is that source's entry verbatim with `WILDCARD = false` and the
`SOURCE` tag naming the origin. -/
theorem C3_combined_database_amended (sabio brenda : List (String × KcatEntry))
    (ec : String) (bE : KcatEntry)
    (hnd : (brenda.map Prod.fst).Nodup) (hmem : (ec, bE) ∈ brenda) :
    (∀ sE, alookup ec sabio = some sE → sE.wildcard = true → bE.wildcard = true →
      alookup ec (create_combined_kcat_database sabio brenda) = none) ∧
    (alookup ec sabio = none → bE.wildcard = true →
      alookup ec (create_combined_kcat_database sabio brenda) = none) ∧
    (∀ sE, alookup ec sabio = some sE → sE.wildcard = false → bE.wildcard = true →
      alookup ec (create_combined_kcat_database sabio brenda) =
        some { sE with wildcard := false, source := some "SABIO-RK" }) ∧
    (bE.wildcard = false →
      alookup ec (create_combined_kcat_database sabio brenda) =
        some (if (match alookup ec sabio with
                  | none => true
                  | some sE => sE.wildcard) then
            { bE with wildcard := false, source := some "BRENDA" }
          else mergeEntries ((alookup ec sabio).getD bE) bE)) := by
  have hbase := alookup_filterMap_keyPreserving (combineEntry sabio)
    (combineEntry_key sabio) brenda hnd ec bE hmem
  rw [create_combined_kcat_database]
  refine ⟨?_, ?_, ?_, ?_⟩
  · intro sE hsE hsw hbw
    rw [hbase, combineEntry]
    dsimp only
    rw [hsE]
    simp [hsw, hbw]
  · intro hsE hbw
    rw [hbase, combineEntry]
    dsimp only
    rw [hsE]
    simp [hbw]
  · intro sE hsE hsw hbw
    rw [hbase, combineEntry]
    dsimp only
    rw [hsE]
    simp [hsw, hbw]
  · intro hbw
    rw [hbase, combineEntry]
    dsimp only
    cases hsE : alookup ec sabio with
    | none => simp [hbw]
    | some sE =>
      cases hsw : sE.wildcard with
      | false => simp [hbw, hsw]
      | true => simp [hbw, hsw]

/-- C3 witness: EC number `"2.7.1.1"` present only in BRENDA and
non-wildcarded there — the combined entry is BRENDA's verbatim with
`WILDCARD = false` and `SOURCE = "BRENDA"`. -/
theorem C3_witness :
    ((∀ sE, alookup "2.7.1.1" ([] : List (String × KcatEntry)) = some sE →
        sE.wildcard = true →
        ({ wildcard := false, mets := [("glc", [("Org", [2])])] } : KcatEntry).wildcard = true →
        alookup "2.7.1.1" (create_combined_kcat_database []
          [("2.7.1.1", { wildcard := false, mets := [("glc", [("Org", [2])])] })]) = none) ∧
      (alookup "2.7.1.1" ([] : List (String × KcatEntry)) = none →
        ({ wildcard := false, mets := [("glc", [("Org", [2])])] } : KcatEntry).wildcard = true →
        alookup "2.7.1.1" (create_combined_kcat_database []
          [("2.7.1.1", { wildcard := false, mets := [("glc", [("Org", [2])])] })]) = none) ∧
      (∀ sE, alookup "2.7.1.1" ([] : List (String × KcatEntry)) = some sE →
        sE.wildcard = false →
        ({ wildcard := false, mets := [("glc", [("Org", [2])])] } : KcatEntry).wildcard = true →
        alookup "2.7.1.1" (create_combined_kcat_database []
          [("2.7.1.1", { wildcard := false, mets := [("glc", [("Org", [2])])] })]) =
          some { sE with wildcard := false, source := some "SABIO-RK" }) ∧
      (({ wildcard := false, mets := [("glc", [("Org", [2])])] } : KcatEntry).wildcard = false →
        alookup "2.7.1.1" (create_combined_kcat_database []
          [("2.7.1.1", { wildcard := false, mets := [("glc", [("Org", [2])])] })]) =
          some (if (match alookup "2.7.1.1" ([] : List (String × KcatEntry)) with
                    | none => true
                    | some sE => sE.wildcard) then
              { ({ wildcard := false, mets := [("glc", [("Org", [2])])] } : KcatEntry) with
                  wildcard := false, source := some "BRENDA" }
            else mergeEntries
              ((alookup "2.7.1.1" ([] : List (String × KcatEntry))).getD
                { wildcard := false, mets := [("glc", [("Org", [2])])] })
              { wildcard := false, mets := [("glc", [("Org", [2])])] }))) :=
  C3_combined_database_amended [] [("2.7.1.1", { wildcard := false, mets := [("glc", [("Org", [2])])] })]
    "2.7.1.1" { wildcard := false, mets := [("glc", [("Org", [2])])] }
    (by decide) (by decide)

/-! ## Lemmas for the taxonomy distance resolver -/

theorem alookup_ainsert {α β : Type} [DecidableEq α] (m : List (α × β)) (k₀ k : α) (v₀ : β) :
    alookup k (ainsert m k₀ v₀) = if k = k₀ then some v₀ else alookup k m := by
  induction m with
  | nil =>
    by_cases h : k = k₀
    · subst h
      simp [ainsert, alookup]
    · have h' : ¬ k₀ = k := fun hc => h hc.symm
      simp [ainsert, alookup, h, h']
  | cons kv rest ih =>
    by_cases h0 : kv.1 = k₀
    · by_cases h : k = k₀
      · subst h
        simp [ainsert, alookup, h0]
      · have h1 : ¬ kv.1 = k := by rw [h0]; exact fun hc => h hc.symm
        have h2 : ¬ k₀ = k := fun hc => h hc.symm
        simp [ainsert, alookup, h0, h1, h, h2]
    · by_cases h1 : kv.1 = k
      · have h2 : ¬ k = k₀ := by rw [← h1]; exact h0
        simp [ainsert, alookup, h0, h1, h2]
      · simp [ainsert, alookup, h0, h1, ih]

theorem lookup_buildLevelDict (base : List String) :
    ∀ (lvl : Nat) (ld : List (String × Nat)) (k : String),
      alookup k (buildLevelDict base lvl ld) =
        match lastIdxOf k base with
        | some i => some (lvl + i)
        | none => alookup k ld := by
  induction base with
  | nil =>
    intro lvl ld k
    rw [buildLevelDict, lastIdxOf]
  | cons x rest ih =>
    intro lvl ld k
    rw [buildLevelDict, ih, lastIdxOf]
    cases hL : lastIdxOf k rest with
    | some i =>
      show some (lvl + 1 + i) = some (lvl + (i + 1))
      have hadd : lvl + 1 + i = lvl + (i + 1) := by omega
      rw [hadd]
    | none =>
      rw [alookup_ainsert]
      by_cases hx : x = k
      · rw [if_pos hx.symm, if_pos hx]
        rfl
      · rw [if_neg (fun hc => hx hc.symm), if_neg hx]

theorem lastIdxOf_eq_none_iff (k : String) (l : List String) :
    lastIdxOf k l = none ↔ k ∉ l := by
  induction l with
  | nil => simp [lastIdxOf]
  | cons x xs ih =>
    rw [lastIdxOf, List.mem_cons]
    cases hL : lastIdxOf k xs with
    | some i =>
      have hmem : k ∈ xs := by
        by_contra hc
        rw [← ih] at hc
        rw [hL] at hc
        cases hc
      simp [hmem]
    | none =>
      rw [ih] at hL
      by_cases hx : x = k
      · simp [hx]
      · have hx' : ¬ k = x := fun hc => hx hc.symm
        simp [hx, hx', hL]

theorem lastIdxOf_nodup (k : String) {l : List String} (h : l.Nodup) :
    lastIdxOf k l = idxOfStr k l := by
  induction l with
  | nil => rfl
  | cons x xs ih =>
    rw [List.nodup_cons] at h
    rw [lastIdxOf, idxOfStr]
    by_cases hx : x = k
    · subst hx
      have hnone : lastIdxOf x xs = none := (lastIdxOf_eq_none_iff x xs).mpr h.1
      simp [hnone]
    · rw [ih h.2]
      cases hI : idxOfStr k xs with
      | none =>
        show (if x = k then some 0 else none : Option Nat) =
          if x = k then some 0 else Option.map (fun i => i + 1) none
        rw [if_neg hx, if_neg hx]
        rfl
      | some i =>
        show some (i + 1) = if x = k then some 0 else Option.map (fun i => i + 1) (some i)
        rw [if_neg hx]
        rfl

theorem idxOfStr_mem {k : String} {l : List String} (h : k ∈ l) :
    ∃ i, idxOfStr k l = some i := by
  induction l with
  | nil => cases h
  | cons x xs ih =>
    rw [idxOfStr]
    by_cases hx : x = k
    · exact ⟨0, by rw [if_pos hx]⟩
    · rcases List.mem_cons.mp h with h1 | h1
      · exact absurd h1.symm hx
      · obtain ⟨i, hi⟩ := ih h1
        exact ⟨i + 1, by rw [if_neg hx, hi]; rfl⟩

theorem firstScore_buildLevelDict (bt : List String) (lin : List String) :
    firstScore (buildLevelDict bt 0 []) lin =
      match lin.find? (fun l => decide (l ∈ bt)) with
      | some l => lastIdxOf l bt
      | none => none := by
  induction lin with
  | nil => rfl
  | cons l0 rest ih =>
    rw [firstScore, List.find?_cons]
    rw [lookup_buildLevelDict bt 0 [] l0]
    cases hL : lastIdxOf l0 bt with
    | some i =>
      have hmem : l0 ∈ bt := by
        by_contra hc
        rw [← lastIdxOf_eq_none_iff] at hc
        rw [hL] at hc
        cases hc
      simp [hmem, hL]
    | none =>
      have hmem : l0 ∉ bt := (lastIdxOf_eq_none_iff l0 bt).mp hL
      simp only [alookup]
      rw [ih]
      simp [hmem]

/-- C7 counterexample: with the single-organism taxonomy dict
`{"E": ["A", "A"]}` (a lineage repeating its nearest level), the base
organism `"E"` is assigned distance `1`, not `0`: the `level_dict` loop
overwrites the rank of a repeated level with the larger index. -/
theorem C7_counterexample :
    most_taxonomic_similar "E" [("E", ["A", "A"])] = some [("E", 1)] ∧
    ¬ most_taxonomic_similar "E" [("E", ["A", "A"])] = some [("E", 0)] := by
  decide

/-- C7 (amended): for every base organism whose lineage is non-empty and
DUPLICATE-FREE (as real NCBI lineages are), the resolver assigns the base
organism distance 0; every candidate is assigned the index, in the base's
lineage, of the first level of the candidate's lineage (scanned
nearest-first) that occurs in the base's lineage; and every candidate
sharing no level with the base is absent from the returned map. -/
theorem C7_taxonomy_rank_amended (taxonomy_dict : List (String × List String))
    (base : String) (bt : List String)
    (hnd : (taxonomy_dict.map Prod.fst).Nodup)
    (hbase : alookup base taxonomy_dict = some bt)
    (hne : bt ≠ []) (hbtnd : bt.Nodup) :
    ∃ m, most_taxonomic_similar base taxonomy_dict = some m ∧
      alookup base m = some 0 ∧
      (∀ sp lin, (sp, lin) ∈ taxonomy_dict →
        lin.find? (fun l => decide (l ∈ bt)) = none → alookup sp m = none) ∧
      (∀ sp lin l, (sp, lin) ∈ taxonomy_dict →
        lin.find? (fun l => decide (l ∈ bt)) = some l →
        alookup sp m = idxOfStr l bt) := by
  have hmost : most_taxonomic_similar base taxonomy_dict =
      some (taxonomy_dict.filterMap
        (fun p => (firstScore (buildLevelDict bt 0 []) p.2).map (fun sc => (p.1, sc)))) := by
    rw [most_taxonomic_similar, hbase]
  have hkey : ∀ (p : String × List String) (q : String × Nat),
      (firstScore (buildLevelDict bt 0 []) p.2).map (fun sc => (p.1, sc)) = some q →
      q.1 = p.1 := by
    intro p q h
    cases hfs : firstScore (buildLevelDict bt 0 []) p.2 with
    | none => rw [hfs] at h; cases h
    | some sc =>
      rw [hfs] at h
      rw [← Option.some.inj h]
  have hgen : ∀ sp lin, (sp, lin) ∈ taxonomy_dict →
      alookup sp (taxonomy_dict.filterMap
        (fun p => (firstScore (buildLevelDict bt 0 []) p.2).map (fun sc => (p.1, sc)))) =
      firstScore (buildLevelDict bt 0 []) lin := by
    intro sp lin hmem
    have h := alookup_filterMap_keyPreserving _ hkey taxonomy_dict hnd sp lin hmem
    rw [h]
    cases hfs : firstScore (buildLevelDict bt 0 []) lin <;> rfl
  refine ⟨_, hmost, ?_, ?_, ?_⟩
  · have hbmem : (base, bt) ∈ taxonomy_dict := alookup_mem hbase
    rw [hgen base bt hbmem, firstScore_buildLevelDict]
    obtain ⟨b0, bt', hbt⟩ := List.exists_cons_of_ne_nil hne
    have hb0 : b0 ∈ bt := by rw [hbt]; exact List.mem_cons_self _ _
    have hfind : bt.find? (fun l => decide (l ∈ bt)) = some b0 := by
      rw [hbt, List.find?_cons]
      simp [hb0]
    rw [hfind]
    show lastIdxOf b0 bt = some 0
    rw [lastIdxOf_nodup b0 hbtnd, hbt, idxOfStr]
    simp
  · intro sp lin hmem hfind
    rw [hgen sp lin hmem, firstScore_buildLevelDict, hfind]
  · intro sp lin l hmem hfind
    rw [hgen sp lin hmem, firstScore_buildLevelDict, hfind]
    show lastIdxOf l bt = idxOfStr l bt
    exact lastIdxOf_nodup l hbtnd

/-- C7 witness: base `"Escherichia coli"` with lineage
`["Escherichia", "Bacteria"]` gets distance 0; `"Pseudomonas"` (first shared
level `"Bacteria"`) gets its index 1; `"Homo sapiens"` (no shared level) is
absent. -/
theorem C7_witness :
    ∃ m, most_taxonomic_similar "Escherichia coli"
        [("Escherichia coli", ["Escherichia", "Bacteria"]),
         ("Pseudomonas", ["Pseudomonas", "Bacteria"]),
         ("Homo sapiens", ["Homo", "Animalia"])] = some m ∧
      alookup "Escherichia coli" m = some 0 ∧
      (∀ sp lin, (sp, lin) ∈
          [("Escherichia coli", ["Escherichia", "Bacteria"]),
           ("Pseudomonas", ["Pseudomonas", "Bacteria"]),
           ("Homo sapiens", ["Homo", "Animalia"])] →
        lin.find? (fun l => decide (l ∈ ["Escherichia", "Bacteria"])) = none →
        alookup sp m = none) ∧
      (∀ sp lin l, (sp, lin) ∈
          [("Escherichia coli", ["Escherichia", "Bacteria"]),
           ("Pseudomonas", ["Pseudomonas", "Bacteria"]),
           ("Homo sapiens", ["Homo", "Animalia"])] →
        lin.find? (fun l => decide (l ∈ ["Escherichia", "Bacteria"])) = some l →
        alookup sp m = idxOfStr l ["Escherichia", "Bacteria"]) :=
  C7_taxonomy_rank_amended
    [("Escherichia coli", ["Escherichia", "Bacteria"]),
     ("Pseudomonas", ["Pseudomonas", "Bacteria"]),
     ("Homo sapiens", ["Homo", "Animalia"])]
    "Escherichia coli" ["Escherichia", "Bacteria"]
    (by decide) (by decide) (by decide) (by decide)

/-- C4: whenever the metabolite-restricted search of `_get_kcat_list`
succeeds with at least 10 kcat samples, `_get_kcat` computes its result by
reducing exactly that sample list: the `"ALL"`-fallback search is never
consulted and cannot contribute the returned value. -/
theorem C4_no_fallback_when_enough_samples (sm : List String)
    (ce : List (String × List (String × List ℚ))) (org dir : String)
    (r : Reaction) (pdb : List (String × ProteinKcatEntry))
    (tax : String → List String) (sel : String) (idx : Nat)
    (kcat_list : List ℚ)
    (hl : _get_kcat_list sm ce org dir r pdb tax = some kcat_list)
    (h10 : 10 ≤ kcat_list.length) :
    _get_kcat sm ce org dir r pdb tax sel idx = selectKcat sel idx kcat_list := by
  rw [_get_kcat, hl]
  show (match (if kcat_list.length < 10 then
        _get_kcat_list ["ALL"] ce org dir r pdb tax
      else some kcat_list) with
    | none => none
    | some kcat_list2 => selectKcat sel idx kcat_list2) = selectKcat sel idx kcat_list
  rw [if_neg (by omega : ¬ kcat_list.length < 10)]

/-- C4 witness: a complete entry with one searched metabolite carrying
10 samples for the organism itself; the result is the mean of exactly those
10 samples. -/
theorem C4_witness :
    _get_kcat ["m"]
      [("m", [("E", [(1:ℚ), 2, 3, 4, 5, 6, 7, 8, 9, 10])])]
      "E" "forward"
      { id := "R1"
        lower_bound := 0
        upper_bound := 10
        gene_reaction_rule := "G1"
        metabolites := [] }
      [] (fun _ => ["Escherichia"]) "mean" 0
      = selectKcat "mean" 0 [(1:ℚ), 2, 3, 4, 5, 6, 7, 8, 9, 10] :=
  C4_no_fallback_when_enough_samples ["m"]
    [("m", [("E", [(1:ℚ), 2, 3, 4, 5, 6, 7, 8, 9, 10])])]
    "E" "forward"
    { id := "R1"
      lower_bound := 0
      upper_bound := 10
      gene_reaction_rule := "G1"
      metabolites := [] }
    [] (fun _ => ["Escherichia"]) "mean" 0
    [(1:ℚ), 2, 3, 4, 5, 6, 7, 8, 9, 10]
    (by decide) (by decide)

/-- C6: the claim states that a protein-database kcat is appended to the
sample list only when the recorded direction matches the searched direction,
and that an opposite-direction entry contributes nothing.  The source's
direction comparison is dead code: both branches of the
`if kcat_direction == searched_direction and searched_direction == "forward"`
test append `max_kcat`, so an entry recorded for the OPPOSITE direction
(`"reverse"` while `"forward"` is searched) still contributes its kcat — here
the database value 5 is returned although its direction does not match. -/
theorem C6_direction_check_dead :
    _get_kcat_from_protein_kcat_database "forward"
      { id := "R1"
        lower_bound := 0
        upper_bound := 10
        gene_reaction_rule := "G1"
        metabolites := [] }
      [("G1", { kcats := [(5:ℚ)]
                direction := [("R1", "reverse")] })]
      = some (some 5) := by
  decide

end Autopacmen
